import Mathlib

/-!
# Verification of the document-extraction workflow controller

This file is a shallow embedding, in Lean 4, of the extraction workflow
implemented in `src/agent/extraction_agent.py` of the `doc_extraction`
repository, together with proofs about the behaviour of that embedding.

The Python code under verification consists of
* a response parser: markdown-fence stripping with `str.split`, then
  `str.strip`, then `json.loads`;
* a validator `validate_extraction` checking schema-required fields and a
  0.7 confidence threshold;
* a LangGraph workflow `extract -> validate -> conditional edge -> END`;
* an agent class `DocumentExtractionAgent` holding a session store.

JSON values are modelled by the inductive type `Json` below; `json.loads`
and `json.dumps` (Python standard library, called by the code) are modelled
by an executable character-level parser `jsonParseL` and serializer
`serVal`, with Python's default `json.dumps` separators `", "` and `": "`.
Numbers are modelled as exact scaled decimals `m / 10 ^ e` (the embedding
does not model binary floating point or exponent notation; the decimal
numerals exchanged by the code are represented exactly).  The single
external I/O dependency — the chat-model call inside `extract_data` — is
modelled by passing the model's raw reply text as an explicit argument.
Python exceptions that the code does not catch are modelled with `Except`.
-/

/-- A JSON value as handled by `json.loads` / `json.dumps`.  A number is the
exact decimal `m / 10 ^ e`; `obj` keeps members in textual order (Python
dicts preserve insertion order). `null` also stands for Python's `None`. -/
inductive Json where
  | null
  | bool (b : Bool)
  | num (m : Int) (e : Nat)
  | str (s : String)
  | arr (items : List Json)
  | obj (members : List (String × Json))

/-! ## Character-list utilities -/

/-- The whitespace test used for `str.strip` and for JSON token separation. -/
def isWs (c : Char) : Bool := c == ' ' || c == '\t' || c == '\n' || c == '\r'

/-- ASCII decimal digit test. -/
def isDig (c : Char) : Bool := '0' ≤ c && c ≤ '9'

/-- Skip leading whitespace. -/
def skipWs (s : List Char) : List Char := s.dropWhile isWs

/-- Python's `str.strip()`: drop whitespace from both ends. -/
def trimChars (s : List Char) : List Char :=
  (((s.dropWhile isWs).reverse).dropWhile isWs).reverse

/-- Boolean list-prefix test (our own, so that all equations are local). -/
def isPre : List Char → List Char → Bool
  | [], _ => true
  | _ :: _, [] => false
  | a :: as, b :: bs => a == b && isPre as bs

/-- Locate the first occurrence of `sep` in `s`: returns the part strictly
before the first occurrence and the part strictly after it. -/
def findSep (sep : List Char) : List Char → Option (List Char × List Char)
  | [] => none
  | c :: t =>
    if isPre sep (c :: t) then some ([], (c :: t).drop sep.length)
    else (findSep sep t).map (fun p => (c :: p.1, p.2))

/-- Python's `sep in s` substring test. -/
def containsSeq (sep s : List Char) : Bool := (findSep sep s).isSome

/-! ## The serializer: `json.dumps` with its default separators -/

/-- The decimal digit character of `d`, for `d < 10`. -/
def digCh : Nat → Char
  | 0 => '0' | 1 => '1' | 2 => '2' | 3 => '3' | 4 => '4'
  | 5 => '5' | 6 => '6' | 7 => '7' | 8 => '8' | _ => '9'

/-- Decimal digit characters of `n`, most significant first. -/
def natDigits (n : Nat) : List Char :=
  if n < 10 then [digCh n]
  else natDigits (n / 10) ++ [digCh (n % 10)]
  termination_by n
  decreasing_by simp_wf; omega

/-- The decimal numeral of `n / 10 ^ e`, printed with exactly `e` digits
after the point (none when `e = 0`), as `repr` prints such a float. -/
def serDecimal (n e : Nat) : List Char :=
  if e = 0 then natDigits n
  else
    let ds := natDigits n
    let padded := if e + 1 ≤ ds.length then ds
      else List.replicate (e + 1 - ds.length) '0' ++ ds
    padded.take (padded.length - e) ++ '.' :: padded.drop (padded.length - e)

/-- Serialize the number `m / 10 ^ e`: optional minus sign, then digits. -/
def serNum (m : Int) (e : Nat) : List Char :=
  (if m < 0 then ['-'] else []) ++ serDecimal m.natAbs e

/-- JSON escape of one character (the escapes `json.dumps` emits for the
characters this development manipulates; other characters pass through). -/
def escCh (c : Char) : List Char :=
  if c == '"' then ['\\', '"']
  else if c == '\\' then ['\\', '\\']
  else if c == '\n' then ['\\', 'n']
  else if c == '\t' then ['\\', 't']
  else if c == '\r' then ['\\', 'r']
  else [c]

/-- The serialized form of a JSON string: quote, escaped body, quote. -/
def serStr (s : String) : List Char := '"' :: (s.data.flatMap escCh ++ ['"'])

mutual
/-- `json.dumps` of a value, to a character list, with Python's default
item separator `", "` and key separator `": "`. -/
def serVal : Json → List Char
  | .null => 'n' :: ['u', 'l', 'l']
  | .bool true => 't' :: ['r', 'u', 'e']
  | .bool false => 'f' :: ['a', 'l', 's', 'e']
  | .num m e => serNum m e
  | .str s => serStr s
  | .arr [] => ['[', ']']
  | .arr (x :: xs) => '[' :: (serItems x xs ++ [']'])
  | .obj [] => ['{', '}']
  | .obj (kv :: kvs) => '{' :: (serMembers kv kvs ++ ['}'])
  termination_by j => sizeOf j
  decreasing_by (all_goals simp_wf); all_goals omega

/-- Comma-separated serialization of a nonempty item list. -/
def serItems (x : Json) : List Json → List Char
  | [] => serVal x
  | y :: ys => serVal x ++ ',' :: ' ' :: serItems y ys
  termination_by xs => sizeOf x + sizeOf xs
  decreasing_by (all_goals simp_wf); all_goals omega

/-- Comma-separated serialization of a nonempty member list. -/
def serMembers : (String × Json) → List (String × Json) → List Char
  | (k, v), [] => serStr k ++ ':' :: ' ' :: serVal v
  | (k, v), kv2 :: kvs => serStr k ++ ':' :: ' ' :: serVal v
      ++ ',' :: ' ' :: serMembers kv2 kvs
  termination_by kv kvs => sizeOf kv + sizeOf kvs
  decreasing_by (all_goals simp_wf); all_goals omega
end

/-- `json.dumps` as a `String`-level function. -/
def jsonDumps (j : Json) : String := ⟨serVal j⟩

/-! ## The parser: `json.loads` (no exponent notation; see the header) -/

/-- Numeric value of a digit character. -/
def digVal (c : Char) : Nat := c.toNat - '0'.toNat

/-- The number denoted by a digit run, most significant digit first. -/
def digitsToNat (ds : List Char) : Nat :=
  ds.foldl (fun acc c => acc * 10 + digVal c) 0

/-- Decode one escape character after a backslash. -/
def unescCh : Char → Option Char
  | 'n' => some '\n'
  | 't' => some '\t'
  | 'r' => some '\r'
  | 'b' => some (Char.ofNat 8)
  | 'f' => some (Char.ofNat 12)
  | '"' => some '"'
  | '\\' => some '\\'
  | '/' => some '/'
  | _ => none

/-- Parse the body of a JSON string after its opening quote, undoing
escapes, up to the closing quote; returns the body and the remainder. -/
def parseStrBody : List Char → Option (List Char × List Char)
  | [] => none
  | '"' :: rest => some ([], rest)
  | '\\' :: [] => none
  | '\\' :: e :: rest2 =>
    match unescCh e with
    | none => none
    | some d => (parseStrBody rest2).map (fun p => (d :: p.1, p.2))
  | c :: rest => (parseStrBody rest).map (fun p => (c :: p.1, p.2))

/-- Signed integer from a sign flag and magnitude. -/
def signedInt (neg : Bool) (n : Nat) : Int := if neg then -(n : Int) else (n : Int)

/-- Parse an unsigned decimal (digit run, optional point and digit run),
yielding a number with the given sign flag. -/
def parseUnsigned (neg : Bool) (s1 : List Char) : Option (Json × List Char) :=
  let ds := s1.takeWhile isDig
  let s2 := s1.dropWhile isDig
  if ds.isEmpty then none
  else
    match s2 with
    | '.' :: s3 =>
      let fs := s3.takeWhile isDig
      let s4 := s3.dropWhile isDig
      if fs.isEmpty then none
      else some (.num (signedInt neg (digitsToNat (ds ++ fs))) fs.length, s4)
    | _ => some (.num (signedInt neg (digitsToNat ds)) 0, s2)

/-- Parse a decimal number (optional sign, digits, optional fraction). -/
def parseNumber : List Char → Option (Json × List Char)
  | '-' :: t => parseUnsigned true t
  | s => parseUnsigned false s

mutual
/-- Parse one JSON value; `fuel` only forces totality. -/
def parseVal : Nat → List Char → Option (Json × List Char)
  | 0, _ => none
  | fuel + 1, s =>
    match skipWs s with
    | [] => none
    | c :: r =>
      if c = 'n' then
        match r with
        | 'u' :: 'l' :: 'l' :: r2 => some (.null, r2)
        | _ => none
      else if c = 't' then
        match r with
        | 'r' :: 'u' :: 'e' :: r2 => some (.bool true, r2)
        | _ => none
      else if c = 'f' then
        match r with
        | 'a' :: 'l' :: 's' :: 'e' :: r2 => some (.bool false, r2)
        | _ => none
      else if c = '"' then
        (parseStrBody r).map (fun p => (.str ⟨p.1⟩, p.2))
      else if c = '[' then
        match skipWs r with
        | ']' :: r2 => some (.arr [], r2)
        | r1 => (parseItems fuel r1).map (fun p => (.arr p.1, p.2))
      else if c = '{' then
        match skipWs r with
        | '}' :: r2 => some (.obj [], r2)
        | r1 => (parseMembers fuel r1).map (fun p => (.obj p.1, p.2))
      else parseNumber (c :: r)

/-- Parse one-or-more comma-separated array items up to `]`. -/
def parseItems : Nat → List Char → Option (List Json × List Char)
  | 0, _ => none
  | fuel + 1, s =>
    match parseVal fuel s with
    | none => none
    | some (v, r) =>
      match skipWs r with
      | ',' :: r2 => (parseItems fuel r2).map (fun p => (v :: p.1, p.2))
      | ']' :: r2 => some ([v], r2)
      | _ => none

/-- Parse one-or-more comma-separated object members up to `}`. -/
def parseMembers : Nat → List Char → Option (List (String × Json) × List Char)
  | 0, _ => none
  | fuel + 1, s =>
    match skipWs s with
    | '"' :: r =>
      match parseStrBody r with
      | none => none
      | some (k, r1) =>
        match skipWs r1 with
        | ':' :: r2 =>
          match parseVal fuel r2 with
          | none => none
          | some (v, r3) =>
            match skipWs r3 with
            | ',' :: r4 => (parseMembers fuel r4).map (fun p => ((⟨k⟩, v) :: p.1, p.2))
            | '}' :: r4 => some ([(⟨k⟩, v)], r4)
            | _ => none
        | _ => none
    | _ => none
end

/-- `json.loads` on a character list: parse one value, allow only trailing
whitespace. `none` models `json.JSONDecodeError`. -/
def jsonParseL (s : List Char) : Option Json :=
  match parseVal (s.length + 1) s with
  | some (v, r) => if (skipWs r).isEmpty then some v else none
  | none => none

/-- `json.loads` on a `String`. -/
def jsonParse (s : String) : Option Json := jsonParseL s.data

/-! ## Round-trip: digits and numbers -/

theorem digCh_isDig (d : Nat) (h : d < 10) : isDig (digCh d) = true := by
  interval_cases d <;> decide

theorem digVal_digCh (d : Nat) (h : d < 10) : digVal (digCh d) = d := by
  interval_cases d <;> decide

/-- Peel the last digit off `natDigits`. -/
theorem natDigits_lastDigit (n : Nat) :
    natDigits n = (if n < 10 then [] else natDigits (n / 10)) ++ [digCh (n % 10)] := by
  rw [natDigits]
  by_cases h : n < 10
  · simp [h, Nat.mod_eq_of_lt h]
  · simp [h]

theorem natDigits_ne_nil (n : Nat) : natDigits n ≠ [] := by
  rw [natDigits_lastDigit]; simp

theorem natDigits_all_dig (n : Nat) : ∀ c ∈ natDigits n, isDig c = true := by
  induction n using Nat.strong_induction_on with
  | _ n ih =>
    intro c hc
    rw [natDigits_lastDigit] at hc
    rcases List.mem_append.mp hc with h | h
    · by_cases h10 : n < 10
      · simp [h10] at h
      · exact ih (n / 10) (Nat.div_lt_self (by omega) (by omega)) c (by simpa [h10] using h)
    · rw [List.mem_singleton] at h
      exact h ▸ digCh_isDig _ (Nat.mod_lt _ (by omega))

theorem digitsToNat_natDigits (n : Nat) : digitsToNat (natDigits n) = n := by
  induction n using Nat.strong_induction_on with
  | _ n ih =>
    rw [natDigits_lastDigit, digitsToNat, List.foldl_append]
    by_cases h : n < 10
    · simp only [if_pos h, List.foldl_nil, List.foldl_cons]
      rw [digVal_digCh _ (Nat.mod_lt _ (by omega))]
      omega
    · simp only [if_neg h, List.foldl_cons, List.foldl_nil]
      have := ih (n / 10) (Nat.div_lt_self (by omega) (by omega))
      rw [digitsToNat] at this
      rw [this, digVal_digCh _ (Nat.mod_lt _ (by omega))]
      omega

/-- A leading zero does not change the denoted number. -/
theorem digitsToNat_cons_zero (u : List Char) : digitsToNat ('0' :: u) = digitsToNat u := by
  rw [digitsToNat, digitsToNat, List.foldl_cons]
  norm_num [digVal]

/-- Leading zeros do not change the denoted number. -/
theorem digitsToNat_replicate_zero (k : Nat) (l : List Char) :
    digitsToNat (List.replicate k '0' ++ l) = digitsToNat l := by
  induction k with
  | zero => simp
  | succ k ih =>
    rw [List.replicate_succ, List.cons_append, digitsToNat_cons_zero]
    exact ih

/-- A run of `p`-characters passes entirely through `takeWhile`. -/
theorem takeWhile_run_append (p : Char → Bool) (ds rest : List Char)
    (h : ∀ c ∈ ds, p c = true) :
    (ds ++ rest).takeWhile p = ds ++ rest.takeWhile p := by
  induction ds with
  | nil => simp
  | cons c t ih =>
    rw [List.cons_append, List.takeWhile_cons, if_pos (h c (by simp)),
      ih (fun x hx => h x (by simp [hx]))]
    rfl

/-- A run of `p`-characters is dropped entirely by `dropWhile`. -/
theorem dropWhile_run_append (p : Char → Bool) (ds rest : List Char)
    (h : ∀ c ∈ ds, p c = true) :
    (ds ++ rest).dropWhile p = rest.dropWhile p := by
  induction ds with
  | nil => simp
  | cons c t ih =>
    rw [List.cons_append, List.dropWhile_cons, if_pos (h c (by simp))]
    exact ih (fun x hx => h x (by simp [hx]))

/-- A remainder that cannot extend a serialized number: empty, or starting
with a character that is neither a digit nor a decimal point. -/
def numStop : List Char → Bool
  | [] => true
  | c :: _ => !(isDig c || c == '.')

theorem numStop_takeWhile {rest : List Char} (h : numStop rest = true) :
    rest.takeWhile isDig = [] := by
  cases rest with
  | nil => rfl
  | cons c t =>
    simp only [numStop, Bool.not_eq_true', Bool.or_eq_false_iff] at h
    simp [List.takeWhile_cons, h.1]

theorem numStop_dropWhile {rest : List Char} (h : numStop rest = true) :
    rest.dropWhile isDig = rest := by
  cases rest with
  | nil => rfl
  | cons c t =>
    simp only [numStop, Bool.not_eq_true', Bool.or_eq_false_iff] at h
    simp [List.dropWhile_cons, h.1]

/-- A nonempty list of `p`-characters starts with a `p`-character. -/
theorem exists_cons_of_run {p : Char → Bool} {l : List Char}
    (h1 : l ≠ []) (h2 : ∀ c ∈ l, p c = true) :
    ∃ c t, l = c :: t ∧ p c = true := by
  cases l with
  | nil => exact absurd rfl h1
  | cons c t => exact ⟨c, t, rfl, h2 c (by simp)⟩

/-- Structure of `serDecimal n e` for `e ≠ 0`: an integer digit run, a
point, and exactly `e` fraction digits, together denoting `n`. -/
theorem serDecimal_split (n e : Nat) (he : e ≠ 0) :
    ∃ ip fp, serDecimal n e = ip ++ '.' :: fp ∧ ip ≠ [] ∧
      (∀ c ∈ ip, isDig c = true) ∧ (∀ c ∈ fp, isDig c = true) ∧
      fp.length = e ∧ digitsToNat (ip ++ fp) = n := by
  set ds := natDigits n with hds
  set padded := if e + 1 ≤ ds.length then ds
    else List.replicate (e + 1 - ds.length) '0' ++ ds with hpadded
  have hall : ∀ c ∈ padded, isDig c = true := by
    intro c hc
    rw [hpadded] at hc
    split at hc
    · exact natDigits_all_dig n c hc
    · rcases List.mem_append.mp hc with h | h
      · rw [List.eq_of_mem_replicate h]; decide
      · exact natDigits_all_dig n c h
  have hlen : e + 1 ≤ padded.length := by
    rw [hpadded]
    split
    · omega
    · rw [List.length_append, List.length_replicate]
      omega
  have hval : digitsToNat padded = n := by
    rw [hpadded]
    split
    · exact digitsToNat_natDigits n
    · rw [digitsToNat_replicate_zero, digitsToNat_natDigits]
  refine ⟨padded.take (padded.length - e), padded.drop (padded.length - e),
    ?_, ?_, ?_, ?_, ?_, ?_⟩
  · rw [serDecimal, if_neg he]
  · have : (padded.take (padded.length - e)).length = padded.length - e := by
      rw [List.length_take]; omega
    intro hnil
    rw [hnil] at this
    simp at this
    omega
  · exact fun c hc => hall c (List.take_subset _ _ hc)
  · exact fun c hc => hall c (List.drop_subset _ _ hc)
  · rw [List.length_drop]; omega
  · rw [List.take_append_drop]; exact hval

/-- `serDecimal` always starts with a digit. -/
theorem serDecimal_head (n e : Nat) :
    ∃ c t, serDecimal n e = c :: t ∧ isDig c = true := by
  by_cases he : e = 0
  · subst he
    rw [serDecimal, if_pos rfl]
    exact exists_cons_of_run (natDigits_ne_nil n) (natDigits_all_dig n)
  · obtain ⟨ip, fp, hsplit, hne, hip, _, _, _⟩ := serDecimal_split n e he
    obtain ⟨c, t, hct, hc⟩ := exists_cons_of_run hne hip
    exact ⟨c, t ++ '.' :: fp, by rw [hsplit, hct]; rfl, hc⟩

/-- A digit character is none of the characters the parser treats specially. -/
theorem isDig_ne (c : Char) (h : isDig c = true) :
    c ≠ 'n' ∧ c ≠ 't' ∧ c ≠ 'f' ∧ c ≠ '"' ∧ c ≠ '[' ∧ c ≠ '{' ∧ c ≠ '-' ∧
    c ≠ ']' ∧ c ≠ '}' ∧ c ≠ '.' ∧ isWs c = false := by
  refine ⟨?_, ?_, ?_, ?_, ?_, ?_, ?_, ?_, ?_, ?_, ?_⟩ <;>
    first
    | (exact fun hh => absurd h (by rw [hh]; decide))
    | skip
  have h1 : c ≠ ' ' := fun hh => absurd h (by rw [hh]; decide)
  have h2 : c ≠ '\t' := fun hh => absurd h (by rw [hh]; decide)
  have h3 : c ≠ '\n' := fun hh => absurd h (by rw [hh]; decide)
  have h4 : c ≠ '\r' := fun hh => absurd h (by rw [hh]; decide)
  simp [isWs, h1, h2, h3, h4]

/-! ## Round-trip: `parseNumber` inverts `serNum` -/

theorem parseNumber_cons_ne {c : Char} (u : List Char) (h : c ≠ '-') :
    parseNumber (c :: u) = parseUnsigned false (c :: u) := by
  rw [parseNumber.eq_def]
  split
  · rename_i t heq
    injection heq with h1 _
    exact absurd h1 h
  · rfl

theorem parseUnsigned_serDecimal (neg : Bool) (n e : Nat) (rest : List Char)
    (hr : numStop rest = true) :
    parseUnsigned neg (serDecimal n e ++ rest) =
      some (.num (signedInt neg n) e, rest) := by
  by_cases he : e = 0
  · subst he
    rw [serDecimal, if_pos rfl]
    simp only [parseUnsigned,
      takeWhile_run_append _ _ _ (natDigits_all_dig n), numStop_takeWhile hr,
      dropWhile_run_append _ _ _ (natDigits_all_dig n), numStop_dropWhile hr,
      List.append_nil]
    rw [if_neg (by simp [natDigits_ne_nil n])]
    have hnat := digitsToNat_natDigits n
    cases rest with
    | nil => simp [hnat]
    | cons c t =>
      simp only [numStop, Bool.not_eq_true', Bool.or_eq_false_iff] at hr
      have hcdot : c ≠ '.' := by simpa using hr.2
      split
      · rename_i s3 heq
        injection heq with h1 _
        exact absurd h1 hcdot
      · simp [hnat]
  · obtain ⟨ip, fp, hsplit, hne, hip, hfp, hlen, hval⟩ := serDecimal_split n e he
    have harr : serDecimal n e ++ rest = ip ++ '.' :: (fp ++ rest) := by
      rw [hsplit]; simp
    rw [harr]
    have hdot : isDig '.' = false := by decide
    simp only [parseUnsigned,
      takeWhile_run_append _ _ _ hip, dropWhile_run_append _ _ _ hip,
      List.takeWhile_cons, List.dropWhile_cons, hdot, if_neg, ite_false,
      Bool.false_eq_true, List.append_nil]
    rw [if_neg (by simp [hne])]
    simp only [takeWhile_run_append _ _ _ hfp, numStop_takeWhile hr,
      dropWhile_run_append _ _ _ hfp, numStop_dropWhile hr, List.append_nil]
    rw [if_neg (by intro hc; rw [List.isEmpty_iff] at hc; rw [hc] at hlen; simp at hlen; omega)]
    rw [hval, hlen]

theorem parseNumber_serNum (m : Int) (e : Nat) (rest : List Char)
    (hr : numStop rest = true) :
    parseNumber (serNum m e ++ rest) = some (.num m e, rest) := by
  rw [serNum]
  by_cases hm : m < 0
  · rw [if_pos hm, List.singleton_append, List.cons_append, parseNumber,
      parseUnsigned_serDecimal _ _ _ _ hr]
    have hsg : signedInt true m.natAbs = m := by
      show -(m.natAbs : Int) = m
      omega
    rw [hsg]
  · rw [if_neg hm, List.nil_append]
    obtain ⟨c, t, hct, hdig⟩ := serDecimal_head m.natAbs e
    obtain ⟨_, _, _, _, _, _, hminus, _, _, _, _⟩ := isDig_ne c hdig
    rw [hct, List.cons_append, parseNumber_cons_ne _ hminus, ← List.cons_append, ← hct,
      parseUnsigned_serDecimal _ _ _ _ hr]
    have hsg : signedInt false m.natAbs = m := by
      show (m.natAbs : Int) = m
      omega
    rw [hsg]

/-! ## Round-trip: strings -/

theorem parseStrBody_escCh (c : Char) (rest : List Char) :
    parseStrBody (escCh c ++ rest) =
      (parseStrBody rest).map (fun p => (c :: p.1, p.2)) := by
  rw [escCh]
  by_cases h1 : c = '"'
  · subst h1; rfl
  · rw [if_neg (by simpa using h1)]
    by_cases h2 : c = '\\'
    · subst h2; rfl
    · rw [if_neg (by simpa using h2)]
      by_cases h3 : c = '\n'
      · subst h3; rfl
      · rw [if_neg (by simpa using h3)]
        by_cases h4 : c = '\t'
        · subst h4; rfl
        · rw [if_neg (by simpa using h4)]
          by_cases h5 : c = '\r'
          · subst h5; rfl
          · rw [if_neg (by simpa using h5), List.singleton_append]
            rw [parseStrBody.eq_def]
            split
            · rename_i heq; exact List.noConfusion heq
            · rename_i r heq; injection heq with hc _; exact absurd hc h1
            · rename_i heq; injection heq with hc _; exact absurd hc h2
            · rename_i e r2 heq; injection heq with hc _; exact absurd hc h2
            · rename_i c2 r2 heq
              injection heq with hc hr
              rw [← hc, ← hr]

theorem parseStrBody_flat (l rest : List Char) :
    parseStrBody (l.flatMap escCh ++ '"' :: rest) = some (l, rest) := by
  induction l with
  | nil => rfl
  | cons c t ih =>
    rw [List.flatMap_cons, List.append_assoc, parseStrBody_escCh, ih]
    rfl

/-! ## Round-trip: heads of serialized output -/

theorem serVal_head (x : Json) :
    ∃ c t, serVal x = c :: t ∧ isWs c = false ∧ c ≠ ']' ∧ c ≠ '}' := by
  cases x with
  | null => exact ⟨'n', ['u', 'l', 'l'], by rw [serVal], by decide, by decide, by decide⟩
  | bool b =>
    cases b with
    | true => exact ⟨'t', ['r', 'u', 'e'], by rw [serVal], by decide, by decide, by decide⟩
    | false => exact ⟨'f', ['a', 'l', 's', 'e'], by rw [serVal], by decide, by decide, by decide⟩
  | num m e =>
    by_cases hm : m < 0
    · exact ⟨'-', serDecimal m.natAbs e,
        by rw [serVal, serNum, if_pos hm]; rfl, by decide, by decide, by decide⟩
    · obtain ⟨c, t, hct, hdig⟩ := serDecimal_head m.natAbs e
      obtain ⟨_, _, _, _, _, _, _, hrb, hcb, _, hws⟩ := isDig_ne c hdig
      exact ⟨c, t, by rw [serVal, serNum, if_neg hm, List.nil_append, hct], hws, hrb, hcb⟩
  | str s =>
    exact ⟨'"', s.data.flatMap escCh ++ ['"'], by rw [serVal]; rfl, by decide, by decide, by decide⟩
  | arr items =>
    cases items with
    | nil => exact ⟨'[', [']'], by rw [serVal], by decide, by decide, by decide⟩
    | cons x xs =>
      exact ⟨'[', serItems x xs ++ [']'], by rw [serVal], by decide, by decide, by decide⟩
  | obj members =>
    cases members with
    | nil => exact ⟨'{', ['}'], by rw [serVal], by decide, by decide, by decide⟩
    | cons kv kvs =>
      exact ⟨'{', serMembers kv kvs ++ ['}'], by rw [serVal], by decide, by decide, by decide⟩

theorem serVal_length_pos (x : Json) : 1 ≤ (serVal x).length := by
  obtain ⟨c, t, hct, _⟩ := serVal_head x
  rw [hct]
  simp

theorem serStr_length (k : String) : 2 ≤ (serStr k).length := by
  rw [serStr]
  simp

theorem serItems_head (x : Json) (xs : List Json) :
    ∃ c t, serItems x xs = c :: t ∧ isWs c = false ∧ c ≠ ']' := by
  obtain ⟨c, t, hct, hws, hrb, _⟩ := serVal_head x
  cases xs with
  | nil => exact ⟨c, t, by rw [serItems, hct], hws, hrb⟩
  | cons y ys =>
    exact ⟨c, t ++ ',' :: ' ' :: serItems y ys, by rw [serItems, hct]; rfl, hws, hrb⟩

theorem serMembers_head (kv : String × Json) (kvs : List (String × Json)) :
    ∃ t, serMembers kv kvs = '"' :: t := by
  obtain ⟨k, v⟩ := kv
  cases kvs with
  | nil => exact ⟨_, by rw [serMembers, serStr]; rfl⟩
  | cons kv2 kvs2 => exact ⟨_, by rw [serMembers, serStr]; rfl⟩

/-! ## Round-trip: whitespace stepping -/

theorem skipWs_cons_not {c : Char} (t : List Char) (h : isWs c = false) :
    skipWs (c :: t) = c :: t := by
  simp [skipWs, List.dropWhile_cons, h]

theorem skipWs_cons_ws {c : Char} (t : List Char) (h : isWs c = true) :
    skipWs (c :: t) = skipWs t := by
  simp [skipWs, List.dropWhile_cons, h]

theorem parseVal_cons_ws {c : Char} (fuel : Nat) (s : List Char) (h : isWs c = true) :
    parseVal fuel (c :: s) = parseVal fuel s := by
  cases fuel with
  | zero => rfl
  | succ f => simp only [parseVal, skipWs_cons_ws s h]

theorem parseItems_cons_ws {c : Char} (fuel : Nat) (s : List Char) (h : isWs c = true) :
    parseItems fuel (c :: s) = parseItems fuel s := by
  cases fuel with
  | zero => rfl
  | succ f => simp only [parseItems, parseVal_cons_ws f s h]

theorem parseMembers_cons_ws {c : Char} (fuel : Nat) (s : List Char) (h : isWs c = true) :
    parseMembers fuel (c :: s) = parseMembers fuel s := by
  cases fuel with
  | zero => rfl
  | succ f => simp only [parseMembers, skipWs_cons_ws s h]

/-- The parser hands a non-keyword, non-punctuation head to `parseNumber`. -/
theorem parseVal_to_number (f : Nat) (c : Char) (t : List Char)
    (hws : isWs c = false) (h1 : c ≠ 'n') (h2 : c ≠ 't') (h3 : c ≠ 'f')
    (h4 : c ≠ '"') (h5 : c ≠ '[') (h6 : c ≠ '{') :
    parseVal (f + 1) (c :: t) = parseNumber (c :: t) := by
  simp only [parseVal, skipWs_cons_not t hws]
  simp [h1, h2, h3, h4, h5, h6]

theorem numStop_cons {c : Char} (t : List Char) (h1 : isDig c = false) (h2 : c ≠ '.') :
    numStop (c :: t) = true := by
  simp [numStop, h1, beq_eq_false_iff_ne.mpr h2]

/-! ## Round-trip: one-step unfoldings (all definitional) -/

theorem parseVal_strBranch (f : Nat) (r : List Char) :
    parseVal (f + 1) ('"' :: r) =
      (parseStrBody r).map (fun p => (Json.str ⟨p.1⟩, p.2)) := rfl

theorem parseVal_arrBranch (f : Nat) (r : List Char) :
    parseVal (f + 1) ('[' :: r) =
      match skipWs r with
      | ']' :: r2 => some (.arr [], r2)
      | r1 => (parseItems f r1).map (fun p => (.arr p.1, p.2)) := rfl

theorem parseVal_objBranch (f : Nat) (r : List Char) :
    parseVal (f + 1) ('{' :: r) =
      match skipWs r with
      | '}' :: r2 => some (.obj [], r2)
      | r1 => (parseMembers f r1).map (fun p => (.obj p.1, p.2)) := rfl

theorem parseItems_succ (f : Nat) (s : List Char) :
    parseItems (f + 1) s =
      match parseVal f s with
      | none => none
      | some (v, r) =>
        match skipWs r with
        | ',' :: r2 => (parseItems f r2).map (fun p => (v :: p.1, p.2))
        | ']' :: r2 => some ([v], r2)
        | _ => none := rfl

theorem parseMembers_succ (f : Nat) (s : List Char) :
    parseMembers (f + 1) s =
      match skipWs s with
      | '"' :: r =>
        (match parseStrBody r with
         | none => none
         | some (k, r1) =>
           match skipWs r1 with
           | ':' :: r2 =>
             (match parseVal f r2 with
              | none => none
              | some (v, r3) =>
                match skipWs r3 with
                | ',' :: r4 => (parseMembers f r4).map (fun p => ((⟨k⟩, v) :: p.1, p.2))
                | '}' :: r4 => some ([(⟨k⟩, v)], r4)
                | _ => none)
           | _ => none)
      | _ => none := rfl

theorem parseMembers_quote (f : Nat) (r : List Char) :
    parseMembers (f + 1) ('"' :: r) =
      match parseStrBody r with
      | none => none
      | some (k, r1) =>
        match skipWs r1 with
        | ':' :: r2 =>
          (match parseVal f r2 with
           | none => none
           | some (v, r3) =>
             match skipWs r3 with
             | ',' :: r4 => (parseMembers f r4).map (fun p => ((⟨k⟩, v) :: p.1, p.2))
             | '}' :: r4 => some ([(⟨k⟩, v)], r4)
             | _ => none)
        | _ => none := rfl

/-! ## The codec round-trip -/

mutual
/-- Parsing a serialized value consumes exactly the serialized characters
and recovers the value, whenever the remainder cannot extend a number. -/
theorem rtVal : ∀ (x : Json) (fuel : Nat) (rest : List Char),
    (serVal x).length < fuel → numStop rest = true →
    parseVal fuel (serVal x ++ rest) = some (x, rest)
  | .null, fuel, rest, hf, _ => by
    cases fuel with
    | zero => exact absurd hf (Nat.not_lt_zero _)
    | succ f =>
      rw [show serVal .null = ['n', 'u', 'l', 'l'] from by rw [serVal]]
      rfl
  | .bool true, fuel, rest, hf, _ => by
    cases fuel with
    | zero => exact absurd hf (Nat.not_lt_zero _)
    | succ f =>
      rw [show serVal (.bool true) = ['t', 'r', 'u', 'e'] from by rw [serVal]]
      rfl
  | .bool false, fuel, rest, hf, _ => by
    cases fuel with
    | zero => exact absurd hf (Nat.not_lt_zero _)
    | succ f =>
      rw [show serVal (.bool false) = ['f', 'a', 'l', 's', 'e'] from by rw [serVal]]
      rfl
  | .num m e, fuel, rest, hf, hr => by
    cases fuel with
    | zero => exact absurd hf (Nat.not_lt_zero _)
    | succ f =>
      rw [show serVal (.num m e) = serNum m e from by rw [serVal]]
      by_cases hm : m < 0
      · have harg : serNum m e ++ rest = '-' :: (serDecimal m.natAbs e ++ rest) := by
          rw [serNum, if_pos hm]; rfl
        rw [harg, parseVal_to_number f '-' _ (by decide) (by decide) (by decide)
          (by decide) (by decide) (by decide) (by decide),
          ← harg, parseNumber_serNum m e rest hr]
      · obtain ⟨c, t, hct, hdig⟩ := serDecimal_head m.natAbs e
        obtain ⟨k1, k2, k3, k4, k5, k6, _, _, _, _, hws⟩ := isDig_ne c hdig
        have harg : serNum m e ++ rest = c :: (t ++ rest) := by
          rw [serNum, if_neg hm, List.nil_append, hct]; rfl
        rw [harg, parseVal_to_number f c _ hws k1 k2 k3 k4 k5 k6,
          ← harg, parseNumber_serNum m e rest hr]
  | .str s, fuel, rest, hf, _ => by
    cases fuel with
    | zero => exact absurd hf (Nat.not_lt_zero _)
    | succ f =>
      have harg : serVal (.str s) ++ rest
          = '"' :: (s.data.flatMap escCh ++ '"' :: rest) := by
        rw [serVal, serStr]; simp
      rw [harg, parseVal_strBranch, parseStrBody_flat]
      rfl
  | .arr [], fuel, rest, hf, _ => by
    cases fuel with
    | zero => exact absurd hf (Nat.not_lt_zero _)
    | succ f =>
      rw [show serVal (.arr []) = ['[', ']'] from by rw [serVal]]
      rfl
  | .arr (x :: xs), fuel, rest, hf, _ => by
    cases fuel with
    | zero => exact absurd hf (Nat.not_lt_zero _)
    | succ f =>
      have hser : serVal (.arr (x :: xs)) = '[' :: (serItems x xs ++ [']']) := by
        rw [serVal]
      have harg : serVal (.arr (x :: xs)) ++ rest
          = '[' :: (serItems x xs ++ ']' :: rest) := by
        rw [hser]; simp
      rw [harg, parseVal_arrBranch]
      obtain ⟨c, t, hct, hws, hrb⟩ := serItems_head x xs
      have hcons : serItems x xs ++ ']' :: rest = c :: (t ++ ']' :: rest) := by
        rw [hct]; rfl
      rw [hcons, skipWs_cons_not _ hws]
      split
      · rename_i r2 heq
        injection heq with hc _
        exact absurd hc hrb
      · rw [← hcons]
        have hfuel : (serItems x xs).length + 1 < f := by
          have hlen : (serVal (.arr (x :: xs))).length = (serItems x xs).length + 2 := by
            rw [hser]; simp
          omega
        rw [rtItems x xs f rest hfuel]
        rfl
  | .obj [], fuel, rest, hf, _ => by
    cases fuel with
    | zero => exact absurd hf (Nat.not_lt_zero _)
    | succ f =>
      rw [show serVal (.obj []) = ['{', '}'] from by rw [serVal]]
      rfl
  | .obj (kv :: kvs), fuel, rest, hf, _ => by
    cases fuel with
    | zero => exact absurd hf (Nat.not_lt_zero _)
    | succ f =>
      have hser : serVal (.obj (kv :: kvs)) = '{' :: (serMembers kv kvs ++ ['}']) := by
        rw [serVal]
      have harg : serVal (.obj (kv :: kvs)) ++ rest
          = '{' :: (serMembers kv kvs ++ '}' :: rest) := by
        rw [hser]; simp
      rw [harg, parseVal_objBranch]
      obtain ⟨t, hct⟩ := serMembers_head kv kvs
      have hcons : serMembers kv kvs ++ '}' :: rest = '"' :: (t ++ '}' :: rest) := by
        rw [hct]; rfl
      rw [hcons, skipWs_cons_not _ (by decide)]
      split
      · rename_i r2 heq
        injection heq with hc _
        exact absurd hc (by decide)
      · rw [← hcons]
        have hfuel : (serMembers kv kvs).length + 1 < f := by
          have hlen : (serVal (.obj (kv :: kvs))).length = (serMembers kv kvs).length + 2 := by
            rw [hser]; simp
          omega
        rw [rtMembers kv kvs f rest hfuel]
        rfl
  termination_by x _ _ _ _ => sizeOf x
  decreasing_by (all_goals simp_wf); all_goals omega

/-- Parsing serialized array items up to the closing bracket recovers them. -/
theorem rtItems : ∀ (x : Json) (xs : List Json) (fuel : Nat) (rest : List Char),
    (serItems x xs).length + 1 < fuel →
    parseItems fuel (serItems x xs ++ ']' :: rest) = some (x :: xs, rest)
  | x, [], fuel, rest, hf => by
    cases fuel with
    | zero => exact absurd hf (Nat.not_lt_zero _)
    | succ f =>
      have hsi : serItems x [] = serVal x := by rw [serItems]
      rw [hsi] at hf ⊢
      rw [parseItems_succ,
        rtVal x f (']' :: rest) (by simp at hf; omega) (numStop_cons _ (by decide) (by decide))]
      rfl
  | x, y :: ys, fuel, rest, hf => by
    cases fuel with
    | zero => exact absurd hf (Nat.not_lt_zero _)
    | succ f =>
      have hsi : serItems x (y :: ys) = serVal x ++ ',' :: ' ' :: serItems y ys := by
        rw [serItems]
      rw [hsi] at hf ⊢
      have harg : (serVal x ++ ',' :: ' ' :: serItems y ys) ++ ']' :: rest
          = serVal x ++ ',' :: ' ' :: (serItems y ys ++ ']' :: rest) := by simp
      have hlx := serVal_length_pos x
      have hlen : (serVal x ++ ',' :: ' ' :: serItems y ys).length
          = (serVal x).length + 2 + (serItems y ys).length := by simp; omega
      rw [harg, parseItems_succ,
        rtVal x f (',' :: ' ' :: (serItems y ys ++ ']' :: rest)) (by omega)
          (numStop_cons _ (by decide) (by decide))]
      show (parseItems f (' ' :: (serItems y ys ++ ']' :: rest))).map _ = _
      rw [parseItems_cons_ws f _ (by decide), rtItems y ys f rest (by omega)]
      rfl
  termination_by x xs _ _ _ => sizeOf x + sizeOf xs
  decreasing_by (all_goals simp_wf); all_goals omega

/-- Parsing serialized object members up to the closing brace recovers them. -/
theorem rtMembers : ∀ (kv : String × Json) (kvs : List (String × Json))
    (fuel : Nat) (rest : List Char),
    (serMembers kv kvs).length + 1 < fuel →
    parseMembers fuel (serMembers kv kvs ++ '}' :: rest) = some (kv :: kvs, rest)
  | (k, v), [], fuel, rest, hf => by
    cases fuel with
    | zero => exact absurd hf (Nat.not_lt_zero _)
    | succ f =>
      have hsm : serMembers (k, v) [] = serStr k ++ ':' :: ' ' :: serVal v := by
        rw [serMembers]
      rw [hsm] at hf ⊢
      have harg : (serStr k ++ ':' :: ' ' :: serVal v) ++ '}' :: rest
          = '"' :: (k.data.flatMap escCh ++ '"' :: (':' :: ' ' :: (serVal v ++ '}' :: rest))) := by
        rw [serStr]; simp
      have hlen : (serStr k ++ ':' :: ' ' :: serVal v).length
          = (serStr k).length + 2 + (serVal v).length := by simp; omega
      rw [harg, parseMembers_quote, parseStrBody_flat]
      show (match parseVal f (' ' :: (serVal v ++ '}' :: rest)) with
        | none => none
        | some (vv, r3) =>
          match skipWs r3 with
          | ',' :: r4 => (parseMembers f r4).map (fun p => ((⟨k.data⟩, vv) :: p.1, p.2))
          | '}' :: r4 => some ([(⟨k.data⟩, vv)], r4)
          | _ => none) = some ([(k, v)], rest)
      rw [parseVal_cons_ws f _ (by decide),
        rtVal v f ('}' :: rest) (by omega) (numStop_cons _ (by decide) (by decide))]
      rfl
  | (k, v), kv2 :: kvs2, fuel, rest, hf => by
    cases fuel with
    | zero => exact absurd hf (Nat.not_lt_zero _)
    | succ f =>
      have hsm : serMembers (k, v) (kv2 :: kvs2)
          = serStr k ++ ':' :: ' ' :: serVal v ++ ',' :: ' ' :: serMembers kv2 kvs2 := by
        rw [serMembers]
      rw [hsm] at hf ⊢
      have harg : (serStr k ++ ':' :: ' ' :: serVal v ++ ',' :: ' ' :: serMembers kv2 kvs2) ++ '}' :: rest
          = '"' :: (k.data.flatMap escCh ++ '"' ::
              (':' :: ' ' :: (serVal v ++ ',' :: ' ' :: (serMembers kv2 kvs2 ++ '}' :: rest)))) := by
        rw [serStr]; simp
      have hlen : (serStr k ++ ':' :: ' ' :: serVal v ++ ',' :: ' ' :: serMembers kv2 kvs2).length
          = (serStr k).length + 2 + (serVal v).length + 2 + (serMembers kv2 kvs2).length := by
        simp; omega
      have hlv := serVal_length_pos v
      have hlk := serStr_length k
      rw [harg, parseMembers_quote, parseStrBody_flat]
      show (match parseVal f (' ' :: (serVal v ++ ',' :: ' ' :: (serMembers kv2 kvs2 ++ '}' :: rest))) with
        | none => none
        | some (vv, r3) =>
          match skipWs r3 with
          | ',' :: r4 => (parseMembers f r4).map (fun p => ((⟨k.data⟩, vv) :: p.1, p.2))
          | '}' :: r4 => some ([(⟨k.data⟩, vv)], r4)
          | _ => none) = some ((k, v) :: kv2 :: kvs2, rest)
      rw [parseVal_cons_ws f _ (by decide),
        rtVal v f (',' :: ' ' :: (serMembers kv2 kvs2 ++ '}' :: rest)) (by omega)
          (numStop_cons _ (by decide) (by decide))]
      show (parseMembers f (' ' :: (serMembers kv2 kvs2 ++ '}' :: rest))).map _ = _
      rw [parseMembers_cons_ws f _ (by decide), rtMembers kv2 kvs2 f rest (by omega)]
      rfl
  termination_by kv kvs _ _ _ => sizeOf kv + sizeOf kvs
  decreasing_by (all_goals simp_wf); all_goals omega
end

/-! ## Top-level codec round-trip -/

theorem jsonParseL_serVal (x : Json) : jsonParseL (serVal x) = some x := by
  rw [jsonParseL]
  have h := rtVal x ((serVal x).length + 1) [] (by omega) rfl
  rw [List.append_nil] at h
  rw [h]
  rfl

/-! ## Fence stripping (`extract_data`, lines 107–111)

Python's `s.split(sep)[1]` is the text between the first and second
occurrence of `sep` (or everything after the first, when there is no
second); `s.split(sep)[0]` is the text before the first occurrence (or all
of `s`).  `splitGet1` and `splitGet0` compute precisely these two
elements, so the fence-stripping composition below is exactly
`response_text.split("```json")[1].split("```")[0]` (and likewise for the
generic fence). -/

/-- The fence marker. -/
def tick3 : List Char := ['`', '`', '`']

/-- The JSON-flavored fence marker. -/
def fenceJson : List Char := ['`', '`', '`', 'j', 's', 'o', 'n']

/-- `s.split(sep)[1]`: between the first two occurrences of `sep`.  (Only
used under an `in` guard, so the no-occurrence `[]` default is dead.) -/
def splitGet1 (sep s : List Char) : List Char :=
  match findSep sep s with
  | none => []
  | some (_, a) =>
    match findSep sep a with
    | none => a
    | some (b, _) => b

/-- `s.split(sep)[0]`: before the first occurrence of `sep`. -/
def splitGet0 (sep s : List Char) : List Char :=
  match findSep sep s with
  | none => s
  | some (b, _) => b

/-- The markdown-fence handling of `extract_data`:
`if "```json" in response_text: response_text.split("```json")[1].split("```")[0]`,
`elif "```" in response_text: response_text.split("```")[1].split("```")[0]`,
else the text unchanged. -/
def stripFencesL (s : List Char) : List Char :=
  if containsSeq fenceJson s then splitGet0 tick3 (splitGet1 fenceJson s)
  else if containsSeq tick3 s then splitGet0 tick3 (splitGet1 tick3 s)
  else s

/-- Fence handling on a `String`. -/
def stripFences (s : String) : String := ⟨stripFencesL s.data⟩

/-- Python's `str.strip()`. -/
def pyStrip (s : String) : String := ⟨trimChars s.data⟩

/-- The full response parser of `extract_data` (lines 104–114): strip
markdown fences, strip whitespace, `json.loads`. -/
def parseResponse (s : String) : Option Json :=
  jsonParseL (trimChars (stripFencesL s.data))

/-! ## Facts about `findSep` -/

theorem isPre_append (l t : List Char) : isPre l (l ++ t) = true := by
  induction l with
  | nil => rfl
  | cons a as ih => simp [isPre, ih]

theorem isPre_exists {sep s : List Char} (h : isPre sep s = true) :
    sep ++ s.drop sep.length = s := by
  induction sep generalizing s with
  | nil => rfl
  | cons a as ih =>
    cases s with
    | nil => exact absurd h (by simp [isPre])
    | cons b bs =>
      simp only [isPre, Bool.and_eq_true, beq_iff_eq] at h
      rw [h.1]
      simpa using ih h.2

theorem findSep_decomp {sep s b a : List Char}
    (h : findSep sep s = some (b, a)) : b ++ sep ++ a = s := by
  induction s generalizing b a with
  | nil => exact absurd h (by rw [findSep]; simp)
  | cons c t ih =>
    rw [findSep] at h
    split at h
    · rename_i hpre
      injection h with h1
      injection h1 with hb ha
      rw [← hb, ← ha, List.nil_append]
      exact isPre_exists hpre
    · cases hfs : findSep sep t with
      | none => rw [hfs] at h; exact absurd h (by simp)
      | some p =>
        rw [hfs] at h
        injection h with h1
        injection h1 with hb ha
        rw [← hb, ← ha]
        have hih := ih (b := p.1) (a := p.2) (by rw [hfs])
        rw [List.cons_append, List.cons_append, hih]

theorem infix_of_findSep {sep s : List Char} {p : List Char × List Char}
    (h : findSep sep s = some p) : sep <:+: s :=
  ⟨p.1, p.2, by simpa using findSep_decomp (b := p.1) (a := p.2) (by rw [h])⟩

theorem findSep_of_not_infix {sep s : List Char} (h : ¬ sep <:+: s) :
    findSep sep s = none := by
  cases hfs : findSep sep s with
  | none => rfl
  | some p => exact absurd (infix_of_findSep hfs) h

theorem findSep_cons_pre {sep : List Char} {c : Char} {t : List Char}
    (h : isPre sep (c :: t) = true) :
    findSep sep (c :: t) = some ([], (c :: t).drop sep.length) := by
  rw [findSep, if_pos h]

theorem findSep_cons_not {sep : List Char} {c : Char} {t : List Char}
    (h : isPre sep (c :: t) = false) :
    findSep sep (c :: t) = (findSep sep t).map (fun p => (c :: p.1, p.2)) := by
  rw [findSep, if_neg (by simp [h])]

theorem infix_cons_of {l C : List Char} (a : Char) (h : l <:+: C) : l <:+: a :: C := by
  obtain ⟨s, t, hst⟩ := h
  exact ⟨a :: s, t, by rw [← hst]; rfl⟩

/-- A fence cannot start inside `C ++ '\n' :: R` at position 0 when `C` is
fence-free: any match either hits the newline or exhibits a fence inside `C`. -/
theorem fence_not_pre (C R : List Char) (h : ¬ tick3 <:+: C) :
    isPre tick3 (C ++ '\n' :: R) = false := by
  cases C with
  | nil => rfl
  | cons a C' =>
    cases C' with
    | nil => simp [tick3, isPre]
    | cons b C'' =>
      cases C'' with
      | nil => simp [tick3, isPre]
      | cons c C''' =>
        cases hp : isPre tick3 ((a :: b :: c :: C''') ++ '\n' :: R) with
        | false => rfl
        | true =>
          exfalso
          simp only [tick3, isPre, List.cons_append, Bool.and_eq_true, beq_iff_eq] at hp
          exact h ⟨[], C''', by rw [tick3, ← hp.1, ← hp.2.1, ← hp.2.2.1]; rfl⟩

theorem isPre_of_isPre_append {p q l : List Char}
    (h : isPre (p ++ q) l = true) : isPre p l = true := by
  induction p generalizing l with
  | nil => rfl
  | cons a as ih =>
    cases l with
    | nil => exact absurd h (by simp [isPre])
    | cons b bs =>
      simp only [List.cons_append, isPre, Bool.and_eq_true] at h ⊢
      exact ⟨h.1, ih h.2⟩

theorem fenceJson_not_pre (C R : List Char) (h : ¬ tick3 <:+: C) :
    isPre fenceJson (C ++ '\n' :: R) = false := by
  cases hp : isPre fenceJson (C ++ '\n' :: R) with
  | false => rfl
  | true =>
    have : isPre tick3 (C ++ '\n' :: R) = true :=
      isPre_of_isPre_append (p := tick3) (q := ['j', 's', 'o', 'n']) hp
    rw [fence_not_pre C R h] at this
    exact Bool.noConfusion this

/-- No JSON-flavored fence occurs in `C ++ "\n```"` when `C` is fence-free. -/
theorem findSep_fenceJson_tail (C : List Char) (h : ¬ tick3 <:+: C) :
    findSep fenceJson (C ++ '\n' :: tick3) = none := by
  induction C with
  | nil => decide
  | cons a C' ih =>
    rw [List.cons_append,
      findSep_cons_not (by
        have := fenceJson_not_pre (a :: C') tick3 h
        rwa [List.cons_append] at this),
      ih (fun hin => h (infix_cons_of a hin))]
    rfl

/-- The first fence in `C ++ "\n```"` is the final one, when `C` is
fence-free: everything up to it is `C ++ "\n"`. -/
theorem findSep_tick3_tail (C : List Char) (h : ¬ tick3 <:+: C) :
    findSep tick3 (C ++ '\n' :: tick3) = some (C ++ ['\n'], []) := by
  induction C with
  | nil => decide
  | cons a C' ih =>
    rw [List.cons_append,
      findSep_cons_not (by
        have := fence_not_pre (a :: C') tick3 h
        rwa [List.cons_append] at this),
      ih (fun hin => h (infix_cons_of a hin))]
    rfl

/-- No fence occurs in `C ++ "\n"` when `C` is fence-free. -/
theorem findSep_tick3_newline (C : List Char) (h : ¬ tick3 <:+: C) :
    findSep tick3 (C ++ ['\n']) = none := by
  induction C with
  | nil => decide
  | cons a C' ih =>
    rw [List.cons_append,
      findSep_cons_not (by
        have := fence_not_pre (a :: C') [] h
        rwa [List.cons_append] at this),
      ih (fun hin => h (infix_cons_of a hin))]
    rfl

theorem findSep_fenceJson_of_not_infix {C : List Char} (h : ¬ tick3 <:+: C) :
    findSep fenceJson C = none :=
  findSep_of_not_infix (fun hin =>
    h ((show tick3 <+: fenceJson from ⟨['j', 's', 'o', 'n'], rfl⟩).isInfix.trans hin))

theorem findSep_append_self {sep : List Char} (u : List Char) (hne : sep ≠ []) :
    findSep sep (sep ++ u) = some ([], u) := by
  cases sep with
  | nil => exact absurd rfl hne
  | cons a as =>
    rw [List.cons_append,
      findSep_cons_pre (by rw [← List.cons_append]; exact isPre_append _ u),
      ← List.cons_append, List.drop_left]

theorem splitGet1_of_some_none {sep s b0 a0 : List Char}
    (h1 : findSep sep s = some (b0, a0)) (h2 : findSep sep a0 = none) :
    splitGet1 sep s = a0 := by
  rw [splitGet1, h1]
  show (match findSep sep a0 with | none => a0 | some (b, _) => b) = a0
  rw [h2]

theorem splitGet1_of_some_some {sep s b0 a0 b1 a1 : List Char}
    (h1 : findSep sep s = some (b0, a0)) (h2 : findSep sep a0 = some (b1, a1)) :
    splitGet1 sep s = b1 := by
  rw [splitGet1, h1]
  show (match findSep sep a0 with | none => a0 | some (b, _) => b) = b1
  rw [h2]

theorem splitGet0_of_none {sep s : List Char} (h : findSep sep s = none) :
    splitGet0 sep s = s := by
  rw [splitGet0, h]

theorem splitGet0_of_some {sep s b a : List Char}
    (h : findSep sep s = some (b, a)) : splitGet0 sep s = b := by
  rw [splitGet0, h]

/-! ## Behaviour of the fence stripper on wrapped and plain content -/

/-- Stripping `"```json\n" + C + "\n```"` yields `"\n" + C + "\n"` whenever
`C` itself contains no fence. -/
theorem stripFencesL_jsonWrap (C : List Char) (h : ¬ tick3 <:+: C) :
    stripFencesL (fenceJson ++ '\n' :: (C ++ '\n' :: tick3)) = '\n' :: (C ++ ['\n']) := by
  have hfs0 := @findSep_append_self fenceJson ('\n' :: (C ++ '\n' :: tick3)) (by decide)
  have hfsu : findSep fenceJson ('\n' :: (C ++ '\n' :: tick3)) = none := by
    rw [@findSep_cons_not fenceJson '\n' (C ++ '\n' :: tick3) rfl,
      findSep_fenceJson_tail C h]
    rfl
  have hft : findSep tick3 ('\n' :: (C ++ '\n' :: tick3))
      = some ('\n' :: (C ++ ['\n']), []) := by
    rw [@findSep_cons_not tick3 '\n' (C ++ '\n' :: tick3) rfl,
      findSep_tick3_tail C h]
    rfl
  rw [stripFencesL, if_pos (by rw [containsSeq, hfs0]; rfl),
    splitGet1_of_some_none hfs0 hfsu, splitGet0_of_some hft]

/-- Stripping `"```\n" + C + "\n```"` also yields `"\n" + C + "\n"`
whenever `C` contains no fence (the JSON-flavored check fails first). -/
theorem stripFencesL_plainWrap (C : List Char) (h : ¬ tick3 <:+: C) :
    stripFencesL (tick3 ++ '\n' :: (C ++ '\n' :: tick3)) = '\n' :: (C ++ ['\n']) := by
  have hnojson : findSep fenceJson (tick3 ++ '\n' :: (C ++ '\n' :: tick3)) = none := by
    rw [show tick3 ++ '\n' :: (C ++ '\n' :: tick3)
        = '`' :: ('`' :: ('`' :: ('\n' :: (C ++ '\n' :: tick3)))) from rfl,
      @findSep_cons_not fenceJson '`'
        ('`' :: ('`' :: ('\n' :: (C ++ '\n' :: tick3)))) rfl,
      @findSep_cons_not fenceJson '`'
        ('`' :: ('\n' :: (C ++ '\n' :: tick3))) rfl,
      @findSep_cons_not fenceJson '`'
        ('\n' :: (C ++ '\n' :: tick3)) rfl,
      @findSep_cons_not fenceJson '\n'
        (C ++ '\n' :: tick3) rfl,
      findSep_fenceJson_tail C h]
    rfl
  have hfs0 := @findSep_append_self tick3 ('\n' :: (C ++ '\n' :: tick3)) (by decide)
  have hfsu : findSep tick3 ('\n' :: (C ++ '\n' :: tick3))
      = some ('\n' :: (C ++ ['\n']), []) := by
    rw [@findSep_cons_not tick3 '\n' (C ++ '\n' :: tick3) rfl,
      findSep_tick3_tail C h]
    rfl
  have hlast : findSep tick3 ('\n' :: (C ++ ['\n'])) = none := by
    rw [@findSep_cons_not tick3 '\n' (C ++ ['\n']) rfl,
      findSep_tick3_newline C h]
    rfl
  rw [stripFencesL, if_neg (by rw [containsSeq, hnojson]; simp),
    if_pos (by rw [containsSeq, hfs0]; rfl),
    splitGet1_of_some_some hfs0 hfsu, splitGet0_of_none hlast]

/-- The fence stripper leaves fence-free text unchanged. -/
theorem stripFencesL_plain (C : List Char) (h : ¬ tick3 <:+: C) :
    stripFencesL C = C := by
  rw [stripFencesL,
    if_neg (by rw [containsSeq, findSep_fenceJson_of_not_infix h]; simp),
    if_neg (by rw [containsSeq, findSep_of_not_infix h]; simp)]

/-- Stripping surrounds: `("\n" + C + "\n").strip() = C.strip()`. -/
theorem trimChars_wrap (C : List Char) :
    trimChars ('\n' :: (C ++ ['\n'])) = trimChars C := by
  rw [trimChars, trimChars, List.dropWhile_cons,
    if_pos (show isWs '\n' = true from rfl), List.dropWhile_append]
  by_cases hC : (C.dropWhile isWs).isEmpty
  · rw [if_pos hC, List.isEmpty_iff.mp hC]
    rfl
  · rw [if_neg hC, List.reverse_append, List.reverse_cons, List.reverse_nil,
      List.nil_append, List.singleton_append, List.dropWhile_cons,
      if_pos (show isWs '\n' = true from rfl)]

/-! ## Serialized output is already stripped -/

/-- A nonempty run of `p`-characters ends with a `p`-character. -/
theorem rev_cons_of_run {p : Char → Bool} {l : List Char}
    (h1 : l ≠ []) (h2 : ∀ c ∈ l, p c = true) :
    ∃ c t, l.reverse = c :: t ∧ p c = true := by
  cases hr : l.reverse with
  | nil => exact absurd (List.reverse_eq_nil_iff.mp hr) h1
  | cons c t =>
    refine ⟨c, t, rfl, h2 c ?_⟩
    rw [← List.mem_reverse, hr]
    simp

theorem serDecimal_last (n e : Nat) :
    ∃ c t, (serDecimal n e).reverse = c :: t ∧ isDig c = true := by
  by_cases he : e = 0
  · subst he
    rw [serDecimal, if_pos rfl]
    exact rev_cons_of_run (natDigits_ne_nil n) (natDigits_all_dig n)
  · obtain ⟨ip, fp, hsplit, _, _, hfp, hlen, _⟩ := serDecimal_split n e he
    have hfpne : fp ≠ [] := by
      intro hc
      rw [hc] at hlen
      simp at hlen
      omega
    obtain ⟨c, t, hct, hc⟩ := rev_cons_of_run hfpne hfp
    refine ⟨c, t ++ '.' :: ip.reverse, ?_, hc⟩
    rw [hsplit, List.reverse_append, List.reverse_cons, hct]
    simp

theorem serVal_last (x : Json) :
    ∃ c t, (serVal x).reverse = c :: t ∧ isWs c = false := by
  cases x with
  | null => exact ⟨'l', ['l', 'u', 'n'], by rw [serVal]; rfl, by decide⟩
  | bool b =>
    cases b with
    | true => exact ⟨'e', ['u', 'r', 't'], by rw [serVal]; rfl, by decide⟩
    | false => exact ⟨'e', ['s', 'l', 'a', 'f'], by rw [serVal]; rfl, by decide⟩
  | num m e =>
    obtain ⟨c, t, hct, hc⟩ := serDecimal_last m.natAbs e
    refine ⟨c, t ++ (if m < 0 then ['-'] else []).reverse,
      ?_, (isDig_ne c hc).2.2.2.2.2.2.2.2.2.2⟩
    rw [serVal, serNum, List.reverse_append, hct]
    rfl
  | str s =>
    exact ⟨'"', (s.data.flatMap escCh).reverse ++ ['"'],
      by rw [serVal, serStr]; simp, by decide⟩
  | arr items =>
    cases items with
    | nil => exact ⟨']', ['['], by rw [serVal]; rfl, by decide⟩
    | cons x xs =>
      exact ⟨']', (serItems x xs).reverse ++ ['['], by rw [serVal]; simp, by decide⟩
  | obj members =>
    cases members with
    | nil => exact ⟨'}', ['{'], by rw [serVal]; rfl, by decide⟩
    | cons kv kvs =>
      exact ⟨'}', (serMembers kv kvs).reverse ++ ['{'], by rw [serVal]; simp, by decide⟩

/-- `json.dumps` output has no surrounding whitespace, so `strip` keeps it. -/
theorem trimChars_serVal (x : Json) : trimChars (serVal x) = serVal x := by
  obtain ⟨c, t, hct, hws⟩ := serVal_head x
  obtain ⟨c2, t2, hct2, hws2⟩ := serVal_last x
  have h1 : (serVal x).dropWhile isWs = serVal x := by
    rw [hct, List.dropWhile_cons, if_neg (by simp [hws])]
  rw [trimChars, h1, hct2, List.dropWhile_cons, if_neg (by simp [hws2]), ← hct2,
    List.reverse_reverse]

/-! ## The data model of `extraction_agent.py`

`ExtractionState` mirrors the `TypedDict` of the same name.  In the Python
domain, JSON `null` and Python `None` are the same value, so `Json.null`
plays both roles; `human_feedback` is a Python `str`-or-`None`, hence
`Option String`.  `Schema` mirrors the caller-supplied JSON-Schema-like
mapping (`properties` mapping and `required` list; `schema.get("required",
[])` is the `required` field, with `[]` for an absent key).  Uncaught
Python exceptions are modelled by `Except PyErr`. -/

/-- The Python exceptions that can escape the embedded code. -/
inductive PyErr where
  | attributeError
  | typeError
  | keyError
  deriving DecidableEq

/-- The caller-supplied extraction schema. -/
structure Schema where
  properties : List (String × Json)
  required : List String

/-- One entry of the `messages` log (role and content). -/
structure Message where
  role : String
  content : String

/-- The state of the extraction workflow (`ExtractionState` TypedDict). -/
structure ExtractionState where
  document_text : String
  json_schema : Schema
  extracted_data : Json
  confidence_scores : Json
  human_feedback : Option String
  iteration : Nat
  max_iterations : Nat
  status : String
  messages : List Message

/-! ## Python dictionary / value semantics -/

/-- Python dict lookup on an ordered member list (later duplicate keys
shadow earlier ones, as repeated keys do in `json.loads`). -/
def objLookup (kvs : List (String × Json)) (k : String) : Option Json :=
  match kvs with
  | [] => none
  | (k2, v) :: rest =>
    match objLookup rest k with
    | some v2 => some v2
    | none => if k2 = k then some v else none

/-- Python `d.get(k, default)`. -/
def objGetD (kvs : List (String × Json)) (k : String) (d : Json) : Json :=
  (objLookup kvs k).getD d

/-- The rational denoted by the number `m / 10 ^ e`. -/
def jsonToRat (m : Int) (e : Nat) : ℚ := (m : ℚ) / (10 : ℚ) ^ e

/-- `v is None`. -/
def Json.isNull : Json → Bool
  | .null => true
  | _ => false

mutual
/-- Python `==` on JSON values (numbers by numeric value).  Python compares
dicts without regard to order; this order-sensitive variant is reached
only through list-membership tests, which no verified claim exercises. -/
def jeq : Json → Json → Bool
  | .null, .null => true
  | .bool a, .bool b => a == b
  | .num m1 e1, .num m2 e2 => decide (jsonToRat m1 e1 = jsonToRat m2 e2)
  | .str a, .str b => a == b
  | .arr xs, .arr ys => jeqList xs ys
  | .obj a, .obj b => jeqMembers a b
  | _, _ => false
  termination_by a _ => sizeOf a
  decreasing_by all_goals (simp_wf; try omega)

def jeqList : List Json → List Json → Bool
  | [], [] => true
  | x :: xs, y :: ys => jeq x y && jeqList xs ys
  | _, _ => false
  termination_by a _ => sizeOf a
  decreasing_by (all_goals simp_wf); all_goals omega

def jeqMembers : List (String × Json) → List (String × Json) → Bool
  | [], [] => true
  | (k1, v1) :: r1, (k2, v2) :: r2 => k1 == k2 && jeq v1 v2 && jeqMembers r1 r2
  | _, _ => false
  termination_by a _ => sizeOf a
  decreasing_by (all_goals simp_wf); all_goals omega
end

/-- Python's `field in container`: key membership for a dict, element
membership for a list, substring for a str; a `TypeError` otherwise
(including `None`, as `in None` raises). -/
def pyIn (field : String) (container : Json) : Except PyErr Bool :=
  match container with
  | .obj kvs => .ok (objLookup kvs field).isSome
  | .arr xs => .ok (xs.any (fun x => jeq (.str field) x))
  | .str s => .ok (containsSeq field.data s.data)
  | _ => .error .typeError

/-- Python's `container[k]` subscript for a string key. -/
def pyGetItem (container : Json) (k : String) : Except PyErr Json :=
  match container with
  | .obj kvs =>
    match objLookup kvs k with
    | some v => .ok v
    | none => .error .keyError
  | _ => .error .typeError

/-- Python's `v < q` against a float threshold: numbers compare by value,
booleans count as 0/1; any other operand raises `TypeError`. -/
def pyLtConf (v : Json) (q : ℚ) : Except PyErr Bool :=
  match v with
  | .num m e => .ok (decide (jsonToRat m e < q))
  | .bool b => .ok (decide ((if b then (1 : ℚ) else 0) < q))
  | _ => .error .typeError

/-- Python `str(x)` as used in the f-string for the extraction notes.  A
string interpolates verbatim; scalars print Python-style.  (Containers
print with `repr` quoting in Python; the claims never read this text, so
container rendering is abstracted by the JSON serializer.) -/
def pyStr (j : Json) : String :=
  match j with
  | .str s => s
  | .null => "None"
  | .bool true => "True"
  | .bool false => "False"
  | .num m e => ⟨serNum m e⟩
  | j => jsonDumps j

/-! ## Prompt builder and workflow nodes -/

/-- Python truthiness of an `Optional[str]`: `None` and `""` are falsy. -/
def pyTruthy : Option String → Bool
  | none => false
  | some f => !(f == "")

/-- The schema as the JSON value `json.dumps` receives. -/
def schemaToJson (s : Schema) : Json :=
  .obj [("properties", .obj s.properties), ("required", .arr (s.required.map .str))]

/-- `create_extraction_prompt` (lines 30–77).  (`json.dumps(schema,
indent=2)` pretty-prints; indentation is abstracted by the serializer.) -/
def create_extraction_prompt (document_text : String) (schema : Schema)
    (feedback : Option String) : String :=
  let schema_str := jsonDumps (schemaToJson schema)
  let base_prompt :=
    "You are an expert document data extraction agent. Extract the required fields from the document according to the provided JSON schema.\n\n## JSON Schema (defines required fields):\n```json\n"
    ++ schema_str
    ++ "\n```\n\n## Document Content:\n```\n"
    ++ document_text
    ++ "\n```\n\n## Instructions:\n1. Extract ALL fields defined in the schema from the document\n2. For each field, provide:\n   - The extracted value (or null if not found)\n   - A confidence score (0.0 to 1.0)\n3. Be precise and extract exact values as they appear in the document\n4. If a field has multiple possible values, choose the most relevant one\n\n"
  let base_prompt :=
    match feedback with
    | some f =>
      if pyTruthy (some f) then
        base_prompt
        ++ "\n## Human Feedback (incorporate this in your extraction):\n"
        ++ f
        ++ "\n\nPlease re-extract the data considering the feedback above. Make corrections as indicated.\n"
      else base_prompt
    | none => base_prompt
  base_prompt
  ++ "\n## Output Format:\nRespond with a valid JSON object containing:\n\x7b\x7b\n  \"extracted_data\": \x7b\x7b\n    // field_name: extracted_value pairs matching the schema\n  \x7d\x7d,\n  \"confidence_scores\": \x7b\x7b\n    // field_name: confidence_score (0.0-1.0) pairs\n  \x7d\x7d,\n  \"extraction_notes\": \"Brief notes about the extraction, any uncertainties or issues\"\n\x7d\x7d\n"

/-- The `extract` node, `extract_data` (lines 79–132).  The chat-model call
is the one external I/O; `response` is its raw reply (`response.content`).
On a JSON parse failure (`parseResponse _ = none`, the `json.JSONDecodeError`
handler) the node returns normally with `status = "error"`; the Python error
message embeds `str(e)`, which the embedding leaves out.  When the reply
parses to a non-dict, `result.get(...)` raises an `AttributeError` that no
handler catches.  As in the Python code, each node returns `messages` holding
only the one new entry; the graph's `add` reducer appends it (`applyNode`). -/
def extract_data (state : ExtractionState) (response : String) :
    Except PyErr ExtractionState :=
  let _prompt := create_extraction_prompt
    state.document_text state.json_schema state.human_feedback
  match parseResponse response with
  | some (.obj kvs) =>
    .ok { state with
      extracted_data := objGetD kvs "extracted_data" (.obj []),
      confidence_scores := objGetD kvs "confidence_scores" (.obj []),
      iteration := state.iteration + 1,
      status := "extracted",
      messages := [⟨"ai", "Extraction completed. Notes: "
        ++ pyStr (objGetD kvs "extraction_notes" (.str "None"))⟩] }
  | some _ => .error .attributeError
  | none =>
    .ok { state with
      extracted_data := .obj [],
      confidence_scores := .obj [],
      iteration := state.iteration + 1,
      status := "error",
      messages := [⟨"ai", "Error parsing extraction result: "⟩] }

/-- Whether `field` counts as missing: `field not in extracted or
extracted[field] is None` (short-circuit order as in the source). -/
def fieldMissing (extracted : Json) (field : String) : Except PyErr Bool :=
  match pyIn field extracted with
  | .error e => .error e
  | .ok isIn =>
    if !isIn then .ok true
    else
      match pyGetItem extracted field with
      | .error e => .error e
      | .ok v => .ok v.isNull

/-- Whether `field` counts as low-confidence: `field in confidence and
confidence[field] < 0.7` (short-circuit order as in the source). -/
def fieldLowConf (confidence : Json) (field : String) : Except PyErr Bool :=
  match pyIn field confidence with
  | .error e => .error e
  | .ok inConf =>
    if inConf then
      match pyGetItem confidence field with
      | .error e => .error e
      | .ok cv => pyLtConf cv (7 / 10)
    else .ok false

/-- The required-fields loop of `validate_extraction` (lines 149–153):
collect missing and low-confidence required fields, in `required` order. -/
def classify_fields (extracted confidence : Json) :
    List String → Except PyErr (List String × List String)
  | [] => .ok ([], [])
  | field :: rest =>
    match fieldMissing extracted field with
    | .error e => .error e
    | .ok missing =>
      if missing then
        match classify_fields extracted confidence rest with
        | .error e => .error e
        | .ok pr => .ok (field :: pr.1, pr.2)
      else
        match fieldLowConf confidence field with
        | .error e => .error e
        | .ok low =>
          match classify_fields extracted confidence rest with
          | .error e => .error e
          | .ok pr =>
            if low then .ok (pr.1, field :: pr.2) else .ok (pr.1, pr.2)

/-- The `validate` node, `validate_extraction` (lines 135–172). -/
def validate_extraction (state : ExtractionState) : Except PyErr ExtractionState :=
  let schema := state.json_schema
  let extracted := state.extracted_data
  let confidence := state.confidence_scores
  let required_fields := schema.required
  let _properties := schema.properties
  match classify_fields extracted confidence required_fields with
  | .error e => .error e
  | .ok pr =>
    let missing_fields := pr.1
    let low_confidence_fields := pr.2
    if !missing_fields.isEmpty || !low_confidence_fields.isEmpty then
      let notes :=
        (if !missing_fields.isEmpty then
          ["Missing required fields: " ++ String.intercalate ", " missing_fields]
         else [])
        ++ (if !low_confidence_fields.isEmpty then
          ["Low confidence fields: " ++ String.intercalate ", " low_confidence_fields]
         else [])
      .ok { state with
        status := "needs_review",
        messages := [⟨"ai", "Validation: " ++ String.intercalate "; " notes⟩] }
    else
      .ok { state with
        status := "validated",
        messages := [⟨"ai", "All required fields extracted with good confidence."⟩] }

/-- `check_feedback_needed` (lines 175–184): the routing label. -/
def check_feedback_needed (state : ExtractionState) : String :=
  if state.status = "needs_review" then "wait_feedback"
  else if state.iteration ≥ state.max_iterations then "end"
  else "end"

/-- `apply_feedback` (lines 187–194).  No edge of the compiled graph leads
into this node (`validate`'s conditional edges both go to `END`), so it is
dead code; it is embedded for completeness. -/
def apply_feedback (state : ExtractionState) : ExtractionState :=
  { state with
    status := "reprocessing",
    messages := [⟨"human", "Applying feedback: " ++ state.human_feedback.getD "None"⟩] }

/-- The conditional-edge mapping of `create_extraction_graph` (lines
212–219): both `"wait_feedback"` and `"end"` are wired to `END`. -/
def conditional_edge_target (label : String) : String :=
  if label = "wait_feedback" then "__end__" else "__end__"

/-- LangGraph channel update for one node: every plain channel takes the
returned value; the `messages` channel (annotated with `operator.add`)
appends the returned entries to the existing log. -/
def applyNode (st : ExtractionState) (r : Except PyErr ExtractionState) :
    Except PyErr ExtractionState :=
  r.map (fun s2 => { s2 with messages := st.messages ++ s2.messages })

/-- One `graph.invoke` of the compiled workflow (lines 197–224): the
`extract` node, the unconditional edge to `validate`, and the conditional
edge on which both labels lead to `END`. -/
def runGraph (st : ExtractionState) (response : String) :
    Except PyErr ExtractionState :=
  match applyNode st (extract_data st response) with
  | .error e => .error e
  | .ok s1 =>
    match applyNode s1 (validate_extraction s1) with
    | .error e => .error e
    | .ok s2 =>
      let _route := conditional_edge_target (check_feedback_needed s2)
      .ok s2

/-! ## The agent: session store and `extract` (lines 227–295) -/

/-- The session store `self.sessions` (a Python dict). -/
def Store := String → Option ExtractionState

/-- The working state `extract` builds before invoking the graph (lines
256–275): with truthy feedback and a prior session, re-seed from the prior
state; otherwise construct a fresh state. -/
def initial_state (sessions : Store) (document_text : String)
    (json_schema : Schema) (session_id : String) (feedback : Option String) :
    ExtractionState :=
  match sessions session_id, pyTruthy feedback with
  | some prev_state, true =>
    { prev_state with human_feedback := feedback, status := "reprocessing" }
  | _, _ =>
    { document_text := document_text, json_schema := json_schema,
      extracted_data := .null, confidence_scores := .null,
      human_feedback := feedback, iteration := 0, max_iterations := 3,
      status := "started", messages := [] }

/-- The result summary `extract` returns (lines 285–292). -/
structure ExtractResult where
  session_id : String
  status : String
  extracted_data : Json
  confidence_scores : Json
  iteration : Nat
  needs_feedback : Bool

/-- `DocumentExtractionAgent.extract` (lines 236–292): seed the working
state, run the graph, store the result under `session_id` (overwriting),
and return the summary.  An exception escaping the graph run (only
`AttributeError` here) propagates before the store is touched. -/
def agent_extract (sessions : Store) (document_text : String)
    (json_schema : Schema) (session_id : String) (feedback : Option String)
    (response : String) : Except PyErr (Store × ExtractResult) :=
  let st := initial_state sessions document_text json_schema session_id feedback
  match runGraph st response with
  | .error e => .error e
  | .ok result =>
    .ok (fun k => if k = session_id then some result else sessions k,
      { session_id := session_id, status := result.status,
        extracted_data := result.extracted_data,
        confidence_scores := result.confidence_scores,
        iteration := result.iteration,
        needs_feedback := result.status == "needs_review" })

/-- `DocumentExtractionAgent.get_session`. -/
def get_session (sessions : Store) (session_id : String) : Option ExtractionState :=
  sessions session_id

/-- A sequence of `extract` calls for one session (each with its feedback
argument and the model reply of its attempt), threading the store. -/
def runCalls (sessions : Store) (document_text : String) (json_schema : Schema)
    (session_id : String) : List (Option String × String) → Except PyErr Store
  | [] => .ok sessions
  | (feedback, response) :: rest =>
    match agent_extract sessions document_text json_schema session_id feedback response with
    | .error e => .error e
    | .ok (store2, _) => runCalls store2 document_text json_schema session_id rest

/-! ## Structural facts about the nodes and the graph -/

theorem objLookup_mem {kvs : List (String × Json)} {k : String} {v : Json}
    (h : objLookup kvs k = some v) : (k, v) ∈ kvs := by
  induction kvs with
  | nil => exact absurd h (by rw [objLookup]; simp)
  | cons kv rest ih =>
    obtain ⟨k2, v2⟩ := kv
    rw [objLookup] at h
    split at h
    · rename_i v2' hrec
      injection h with h1
      exact List.mem_cons_of_mem _ (ih (h1 ▸ hrec))
    · split at h
      · rename_i hk
        injection h with h1
        rw [← hk, ← h1]
        exact List.mem_cons_self _ _
      · exact Option.noConfusion h

/-- The parse-failure branch of `extract_data` (the `JSONDecodeError`
handler): a normal return with empty data and `status = "error"`. -/
theorem extract_data_parse_failure (st : ExtractionState) (resp : String)
    (h : parseResponse resp = none) :
    extract_data st resp = .ok { st with
      extracted_data := .obj [], confidence_scores := .obj [],
      iteration := st.iteration + 1, status := "error",
      messages := [⟨"ai", "Error parsing extraction result: "⟩] } := by
  simp only [extract_data, h]

theorem extract_data_ok {st : ExtractionState} {resp : String} {s1 : ExtractionState}
    (h : extract_data st resp = .ok s1) :
    s1.document_text = st.document_text ∧ s1.json_schema = st.json_schema ∧
    s1.human_feedback = st.human_feedback ∧ s1.max_iterations = st.max_iterations ∧
    s1.iteration = st.iteration + 1 ∧
    (s1.status = "extracted" ∨ s1.status = "error") := by
  simp only [extract_data] at h
  split at h
  · injection h with h1
    rw [← h1]
    exact ⟨rfl, rfl, rfl, rfl, rfl, Or.inl rfl⟩
  · exact Except.noConfusion h
  · injection h with h1
    rw [← h1]
    exact ⟨rfl, rfl, rfl, rfl, rfl, Or.inr rfl⟩

theorem validate_ok_fields {st v : ExtractionState}
    (h : validate_extraction st = .ok v) :
    v.document_text = st.document_text ∧ v.json_schema = st.json_schema ∧
    v.human_feedback = st.human_feedback ∧ v.max_iterations = st.max_iterations ∧
    v.iteration = st.iteration ∧ v.extracted_data = st.extracted_data ∧
    v.confidence_scores = st.confidence_scores ∧
    (v.status = "needs_review" ∨ v.status = "validated") := by
  simp only [validate_extraction] at h
  split at h
  · exact Except.noConfusion h
  · split at h
    · injection h with h1
      rw [← h1]
      exact ⟨rfl, rfl, rfl, rfl, rfl, rfl, rfl, Or.inl rfl⟩
    · injection h with h1
      rw [← h1]
      exact ⟨rfl, rfl, rfl, rfl, rfl, rfl, rfl, Or.inr rfl⟩

theorem applyNode_ok_elim {st : ExtractionState} {r : Except PyErr ExtractionState}
    {s' : ExtractionState} (h : applyNode st r = .ok s') :
    ∃ s0, r = .ok s0 ∧ s' = { s0 with messages := st.messages ++ s0.messages } := by
  cases r with
  | error e => exact Except.noConfusion h
  | ok a =>
    injection h with h1
    exact ⟨a, rfl, h1.symm⟩

theorem applyNode_ok_intro {st : ExtractionState} {r : Except PyErr ExtractionState}
    {s0 : ExtractionState} (h : r = .ok s0) :
    applyNode st r = .ok { s0 with messages := st.messages ++ s0.messages } := by
  rw [h]; rfl

theorem runGraph_ok_elim {st : ExtractionState} {resp : String} {st' : ExtractionState}
    (h : runGraph st resp = .ok st') :
    ∃ e1 v1, extract_data st resp = .ok e1 ∧
      validate_extraction { e1 with messages := st.messages ++ e1.messages } = .ok v1 ∧
      st' = { v1 with messages := (st.messages ++ e1.messages) ++ v1.messages } := by
  rw [runGraph] at h
  split at h
  · exact Except.noConfusion h
  · rename_i s1 h1
    split at h
    · exact Except.noConfusion h
    · rename_i s2 h2
      injection h with h3
      obtain ⟨e1, he1, hs1⟩ := applyNode_ok_elim h1
      obtain ⟨v1, hv1, hs2⟩ := applyNode_ok_elim h2
      subst hs1
      refine ⟨e1, v1, he1, hv1, ?_⟩
      rw [← h3, hs2]

/-- Every completed graph run increments `iteration` exactly once,
preserves the immutable inputs, and ends in a validator verdict. -/
theorem runGraph_ok_fields {st : ExtractionState} {resp : String} {st' : ExtractionState}
    (h : runGraph st resp = .ok st') :
    st'.iteration = st.iteration + 1 ∧ st'.document_text = st.document_text ∧
    st'.json_schema = st.json_schema ∧ st'.human_feedback = st.human_feedback ∧
    st'.max_iterations = st.max_iterations ∧
    (st'.status = "needs_review" ∨ st'.status = "validated") := by
  obtain ⟨e1, v1, he1, hv1, hst⟩ := runGraph_ok_elim h
  obtain ⟨hd, hs, hf, hm, hi, _⟩ := extract_data_ok he1
  obtain ⟨hd2, hs2, hf2, hm2, hi2, _, _, hstat⟩ := validate_ok_fields hv1
  subst hst
  exact ⟨by rw [show v1.iteration = e1.iteration from hi2, hi],
    by rw [show v1.document_text = e1.document_text from hd2, hd],
    by rw [show v1.json_schema = e1.json_schema from hs2, hs],
    by rw [show v1.human_feedback = e1.human_feedback from hf2, hf],
    by rw [show v1.max_iterations = e1.max_iterations from hm2, hm],
    hstat⟩

/-! ## Characterizing the validator on dictionary-shaped inputs -/

/-- The loop's missing-field test, as a predicate on the member list. -/
def missingPred (ed : List (String × Json)) (f : String) : Bool :=
  match objLookup ed f with
  | none => true
  | some v => v.isNull

/-- The loop's low-confidence test, as a predicate on the member lists. -/
def lowConfPred (ed cs : List (String × Json)) (f : String) : Bool :=
  !missingPred ed f &&
    (match objLookup cs f with
     | some (.num m e) => decide (jsonToRat m e < 7 / 10)
     | _ => false)

theorem fieldMissing_obj (ed : List (String × Json)) (f : String) :
    fieldMissing (.obj ed) f = .ok (missingPred ed f) := by
  rw [fieldMissing, pyIn, missingPred]
  cases hl : objLookup ed f with
  | none => simp [hl]
  | some v => simp [hl, pyGetItem]

theorem fieldLowConf_obj {cs : List (String × Json)} (f : String)
    (hconf : ∀ p ∈ cs, ∃ m e, p.2 = Json.num m e) :
    fieldLowConf (.obj cs) f =
      .ok (match objLookup cs f with
           | some (.num m e) => decide (jsonToRat m e < 7 / 10)
           | _ => false) := by
  rw [fieldLowConf, pyIn]
  cases hl : objLookup cs f with
  | none => simp [hl]
  | some cv =>
    obtain ⟨m, e, hme⟩ := hconf (f, cv) (objLookup_mem hl)
    simp only at hme
    subst hme
    simp [hl, pyGetItem, pyLtConf]

/-- The required-fields loop equals filtering `required` with the two
predicates, in `required` order. -/
theorem classify_obj {ed cs : List (String × Json)}
    (hconf : ∀ p ∈ cs, ∃ m e, p.2 = Json.num m e) :
    ∀ required : List String,
    classify_fields (.obj ed) (.obj cs) required =
      .ok (required.filter (missingPred ed), required.filter (lowConfPred ed cs))
  | [] => rfl
  | f :: rest => by
    rw [classify_fields, fieldMissing_obj]
    cases hm : missingPred ed f with
    | true =>
      simp only [classify_obj hconf rest]
      simp [List.filter_cons, hm, lowConfPred]
    | false =>
      simp only [fieldLowConf_obj f hconf, classify_obj hconf rest]
      cases hb : (match objLookup cs f with
        | some (.num m e) => decide (jsonToRat m e < 7 / 10)
        | _ => false) with
      | true => simp [List.filter_cons, hm, lowConfPred, hb]
      | false => simp [List.filter_cons, hm, lowConfPred, hb]

theorem isNull_iff (v : Json) : v.isNull = true ↔ v = .null := by
  cases v <;> simp [Json.isNull]

theorem missingPred_iff (ed : List (String × Json)) (f : String) :
    missingPred ed f = true ↔
      (objLookup ed f = none ∨ objLookup ed f = some .null) := by
  rw [missingPred]
  cases hl : objLookup ed f with
  | none => simp
  | some v => simp [isNull_iff]

theorem confLow_iff (cs : List (String × Json)) (f : String) :
    (match objLookup cs f with
     | some (.num m e) => decide (jsonToRat m e < 7 / 10)
     | _ => false) = true ↔
      ∃ m e, objLookup cs f = some (.num m e) ∧ jsonToRat m e < 7 / 10 := by
  cases hl : objLookup cs f with
  | none => simp
  | some cv =>
    cases cv with
    | num m e =>
      simp only [Option.some.injEq, Json.num.injEq, decide_eq_true_eq]
      constructor
      · intro h
        exact ⟨m, e, ⟨rfl, rfl⟩, h⟩
      · rintro ⟨m1, e1, ⟨h1, h2⟩, h3⟩
        rw [h1, h2]
        exact h3
    | null => simp
    | bool b => simp
    | str s2 => simp
    | arr xs => simp
    | obj kvs => simp

theorem filter_isEmpty_false_iff (p : String → Bool) (required : List String) :
    (required.filter p).isEmpty = false ↔ ∃ f ∈ required, p f = true := by
  constructor
  · intro h
    obtain ⟨f, hf⟩ : ∃ f, f ∈ required.filter p := by
      cases hfp : required.filter p with
      | nil => rw [hfp] at h; exact Bool.noConfusion h
      | cons a t => exact ⟨a, hfp ▸ List.mem_cons_self a t⟩
    have hmem := List.mem_filter.mp hf
    exact ⟨f, hmem.1, hmem.2⟩
  · rintro ⟨f, hfm, hpf⟩
    cases hE : (required.filter p).isEmpty with
    | false => rfl
    | true =>
      rw [List.isEmpty_iff, List.filter_eq_nil_iff] at hE
      exact absurd hpf (hE f hfm)

/-- The loop flags some field iff some required field is missing, null, or
recorded with confidence strictly below `0.7` — the claim-level reading
of the decision rule. -/
theorem reviewCond_iff (ed cs : List (String × Json)) (required : List String) :
    (!(required.filter (missingPred ed)).isEmpty
      || !(required.filter (lowConfPred ed cs)).isEmpty) = true ↔
      ∃ f ∈ required,
        (objLookup ed f = none ∨ objLookup ed f = some .null) ∨
        (∃ m e, objLookup cs f = some (.num m e) ∧ jsonToRat m e < 7 / 10) := by
  rw [Bool.or_eq_true, Bool.not_eq_true', Bool.not_eq_true',
    filter_isEmpty_false_iff, filter_isEmpty_false_iff]
  constructor
  · rintro (⟨f, hm, hp⟩ | ⟨f, hm, hp⟩)
    · exact ⟨f, hm, Or.inl ((missingPred_iff ed f).mp hp)⟩
    · rw [lowConfPred, Bool.and_eq_true] at hp
      exact ⟨f, hm, Or.inr ((confLow_iff cs f).mp hp.2)⟩
  · rintro ⟨f, hm, hcond⟩
    by_cases hmp : missingPred ed f = true
    · exact Or.inl ⟨f, hm, hmp⟩
    · rcases hcond with hmiss | hlow
      · exact absurd ((missingPred_iff ed f).mpr hmiss) hmp
      · refine Or.inr ⟨f, hm, ?_⟩
        rw [lowConfPred, Bool.and_eq_true]
        exact ⟨by simp [hmp], (confLow_iff cs f).mpr hlow⟩

/-- The state `validate_extraction` produces from the classified missing
and low-confidence field lists. -/
def validationResult (st : ExtractionState) (mF lF : List String) : ExtractionState :=
  if !mF.isEmpty || !lF.isEmpty then
    { st with
      status := "needs_review",
      messages := [⟨"ai", "Validation: " ++ String.intercalate "; "
        ((if !mF.isEmpty then
            ["Missing required fields: " ++ String.intercalate ", " mF] else [])
         ++ (if !lF.isEmpty then
            ["Low confidence fields: " ++ String.intercalate ", " lF] else []))⟩] }
  else
    { st with
      status := "validated",
      messages := [⟨"ai", "All required fields extracted with good confidence."⟩] }

/-- `validate_extraction` on dictionary-shaped data, in closed form. -/
theorem validate_obj {st : ExtractionState} {ed cs : List (String × Json)}
    (h1 : st.extracted_data = .obj ed) (h2 : st.confidence_scores = .obj cs)
    (hconf : ∀ p ∈ cs, ∃ m e, p.2 = Json.num m e) :
    validate_extraction st = .ok (validationResult st
      (st.json_schema.required.filter (missingPred ed))
      (st.json_schema.required.filter (lowConfPred ed cs))) := by
  simp only [validate_extraction, h1, h2, classify_obj hconf, validationResult]
  split <;> rfl

/-! ## `max_iterations` does not influence the run -/

theorem extract_data_setMax (st : ExtractionState) (m : Nat) (resp : String) :
    extract_data { st with max_iterations := m } resp =
      (extract_data st resp).map (fun s => { s with max_iterations := m }) := by
  cases hp : parseResponse resp with
  | none => simp [extract_data, hp, Except.map]
  | some v => cases v <;> simp [extract_data, hp, Except.map]

theorem validate_setMax (st : ExtractionState) (m : Nat) :
    validate_extraction { st with max_iterations := m } =
      (validate_extraction st).map (fun s => { s with max_iterations := m }) := by
  cases hc : classify_fields st.extracted_data st.confidence_scores
      st.json_schema.required with
  | error e => simp [validate_extraction, hc, Except.map]
  | ok pr =>
    simp only [validate_extraction, hc, Except.map]
    split <;> rfl

theorem applyNode_setMax (st : ExtractionState) (m : Nat)
    (r : Except PyErr ExtractionState) :
    applyNode { st with max_iterations := m }
        (r.map (fun s => { s with max_iterations := m })) =
      (applyNode st r).map (fun s => { s with max_iterations := m }) := by
  cases r <;> simp [applyNode, Except.map]

theorem runGraph_setMax (st : ExtractionState) (m : Nat) (resp : String) :
    runGraph { st with max_iterations := m } resp =
      (runGraph st resp).map (fun s => { s with max_iterations := m }) := by
  rw [runGraph, runGraph, extract_data_setMax, applyNode_setMax]
  cases h1 : applyNode st (extract_data st resp) with
  | error e => rfl
  | ok s1 =>
    simp only [Except.map]
    rw [validate_setMax, applyNode_setMax]
    cases h2 : applyNode s1 (validate_extraction s1) with
    | error e => rfl
    | ok s2 => rfl

/-! ## Facts about `agent_extract` and the session store -/

theorem initial_state_fresh (sessions : Store) (doc : String) (schema : Schema)
    (sid : String) (fb : Option String)
    (h : pyTruthy fb = false ∨ sessions sid = none) :
    initial_state sessions doc schema sid fb =
      { document_text := doc, json_schema := schema,
        extracted_data := .null, confidence_scores := .null,
        human_feedback := fb, iteration := 0, max_iterations := 3,
        status := "started", messages := [] } := by
  rcases h with h | h
  · cases hs : sessions sid with
    | none => rw [initial_state, hs]
    | some prev => rw [initial_state, hs, h]
  · rw [initial_state, h]

theorem initial_state_seeded {sessions : Store} {sid : String} {fb : Option String}
    {prev : ExtractionState} (doc : String) (schema : Schema)
    (h1 : pyTruthy fb = true) (h2 : sessions sid = some prev) :
    initial_state sessions doc schema sid fb =
      { prev with human_feedback := fb, status := "reprocessing" } := by
  rw [initial_state, h1, h2]

theorem agent_extract_ok_elim {sessions : Store} {doc : String} {schema : Schema}
    {sid : String} {fb : Option String} {resp : String} {store2 : Store}
    {res : ExtractResult}
    (h : agent_extract sessions doc schema sid fb resp = .ok (store2, res)) :
    ∃ final, runGraph (initial_state sessions doc schema sid fb) resp = .ok final ∧
      store2 = (fun k => if k = sid then some final else sessions k) ∧
      res = ⟨sid, final.status, final.extracted_data, final.confidence_scores,
        final.iteration, final.status == "needs_review"⟩ := by
  rw [agent_extract] at h
  split at h
  · exact Except.noConfusion h
  · rename_i final hrun
    injection h with h1
    injection h1 with h2 h3
    exact ⟨final, hrun, h2.symm, h3.symm⟩

theorem agent_extract_ok_intro {sessions : Store} {doc : String} {schema : Schema}
    {sid : String} {fb : Option String} {resp : String} {final : ExtractionState}
    (h : runGraph (initial_state sessions doc schema sid fb) resp = .ok final) :
    agent_extract sessions doc schema sid fb resp =
      .ok (fun k => if k = sid then some final else sessions k,
        ⟨sid, final.status, final.extracted_data, final.confidence_scores,
          final.iteration, final.status == "needs_review"⟩) := by
  rw [agent_extract, h]

/-- Along a chain of calls that all carry truthy feedback, the stored
iteration counter advances by exactly the number of calls. -/
theorem runCalls_chain : ∀ (calls : List (Option String × String)) (sessions : Store)
    (doc : String) (schema : Schema) (sid : String) (st0 : ExtractionState)
    (store2 : Store),
    sessions sid = some st0 →
    (∀ p ∈ calls, pyTruthy p.1 = true) →
    runCalls sessions doc schema sid calls = .ok store2 →
    ∃ st, store2 sid = some st ∧ st.iteration = st0.iteration + calls.length
  | [], sessions, doc, schema, sid, st0, store2, hs, _, hrun => by
    rw [runCalls] at hrun
    injection hrun with h1
    exact ⟨st0, h1 ▸ hs, by simp⟩
  | (fb, r) :: rest, sessions, doc, schema, sid, st0, store2, hs, hall, hrun => by
    rw [runCalls] at hrun
    cases hag : agent_extract sessions doc schema sid fb r with
    | error e => rw [hag] at hrun; exact Except.noConfusion hrun
    | ok p =>
      obtain ⟨store1, res⟩ := p
      rw [hag] at hrun
      obtain ⟨final, hrunG, hstore, _⟩ := agent_extract_ok_elim hag
      have hseed := initial_state_seeded doc schema
        (hall (fb, r) (List.mem_cons_self _ _)) hs
      rw [hseed] at hrunG
      have hit : final.iteration = st0.iteration + 1 := (runGraph_ok_fields hrunG).1
      have hs1 : store1 sid = some final := by rw [hstore]; simp
      obtain ⟨st, hsid, hiter⟩ := runCalls_chain rest store1 doc schema sid final
        store2 hs1 (fun q hq => hall q (List.mem_cons_of_mem _ hq)) hrun
      exact ⟨st, hsid, by rw [hiter, hit]; simp [List.length_cons]; omega⟩

theorem runGraph_ok_intro {st e1 v1 : ExtractionState} {resp : String}
    (h1 : extract_data st resp = .ok e1)
    (h2 : validate_extraction { e1 with messages := st.messages ++ e1.messages } = .ok v1) :
    runGraph st resp = .ok { v1 with messages := (st.messages ++ e1.messages) ++ v1.messages } := by
  simp only [runGraph, applyNode_ok_intro h1, applyNode_ok_intro h2]

theorem filter_all_true {p : String → Bool} :
    ∀ {l : List String}, (∀ a ∈ l, p a = true) → l.filter p = l
  | [], _ => rfl
  | a :: t, h => by
    rw [List.filter_cons, if_pos (h a (List.mem_cons_self _ _)),
      filter_all_true (fun x hx => h x (List.mem_cons_of_mem _ hx))]

/-! # The claims -/

/-- C7: `max_iterations` is read but never enforced: the status an
extraction run returns is the same for every value of `max_iterations`
(below, at, or above the current iteration); the routing function
collapses to a pure test on `status`, and both routing labels are wired to
`END`, so reaching the ceiling changes neither control flow nor verdict. -/
theorem c7_max_iterations_not_enforced :
    (∀ (st : ExtractionState) (resp : String) (m1 m2 : Nat),
      (runGraph { st with max_iterations := m1 } resp).map ExtractionState.status
        = (runGraph { st with max_iterations := m2 } resp).map ExtractionState.status)
    ∧ (∀ st : ExtractionState,
      check_feedback_needed st =
        if st.status = "needs_review" then "wait_feedback" else "end")
    ∧ (∀ label : String, conditional_edge_target label = "__end__") := by
  refine ⟨?_, ?_, ?_⟩
  · intro st resp m1 m2
    rw [runGraph_setMax st m1 resp, runGraph_setMax st m2 resp]
    cases h : runGraph st resp <;> simp [Except.map]
  · intro st
    by_cases h : st.status = "needs_review" <;> simp [check_feedback_needed, h]
  · intro label
    by_cases h : label = "wait_feedback" <;> simp [conditional_edge_target, h]

/-- C8: every returning `extract()` call persists the resulting state under
`session_id`, overwriting any prior entry and leaving every other session
untouched, and returns a summary of exactly `session_id`, `status`,
`extracted_data`, `confidence_scores`, `iteration`, `needs_feedback`,
where `needs_feedback` holds iff the final status is `"needs_review"`. -/
theorem c8_persist_and_summary :
    ∀ (sessions : Store) (doc : String) (schema : Schema) (sid : String)
      (fb : Option String) (resp : String) (store2 : Store) (res : ExtractResult),
    agent_extract sessions doc schema sid fb resp = .ok (store2, res) →
    ∃ final, store2 sid = some final ∧
      (∀ k, k ≠ sid → store2 k = sessions k) ∧
      res.session_id = sid ∧ res.status = final.status ∧
      res.extracted_data = final.extracted_data ∧
      res.confidence_scores = final.confidence_scores ∧
      res.iteration = final.iteration ∧
      (res.needs_feedback = true ↔ res.status = "needs_review") := by
  intro sessions doc schema sid fb resp store2 res h
  obtain ⟨final, _, hstore, hres⟩ := agent_extract_ok_elim h
  subst hres
  subst hstore
  exact ⟨final, by simp, fun k hk => by simp [hk], rfl, rfl, rfl, rfl, rfl,
    by simp [beq_iff_eq]⟩

/-- C8 witness: a concrete call persists its state under `"s1"` and
returns the summary fields of that state, with `needs_feedback` tracking
`needs_review`. -/
theorem c8_witness :
    ∃ store2 res,
      agent_extract (fun _ => none) "d" (⟨[], []⟩ : Schema) "s1" none "\x7b\x7d"
        = .ok (store2, res) ∧
      ∃ final, store2 "s1" = some final ∧
        (∀ k, k ≠ "s1" → store2 k = (fun _ => none : Store) k) ∧
        res.session_id = "s1" ∧ res.status = final.status ∧
        res.extracted_data = final.extracted_data ∧
        res.confidence_scores = final.confidence_scores ∧
        res.iteration = final.iteration ∧
        (res.needs_feedback = true ↔ res.status = "needs_review") := by
  refine ⟨_, _, rfl, ?_⟩
  exact c8_persist_and_summary (fun _ => none) "d" ⟨[], []⟩ "s1" none "\x7b\x7d" _ _ rfl

/-- C10: when the reply parses (after fence-stripping) to valid JSON that
is not a JSON object, the attempt raises an uncaught `AttributeError`
(`result.get` on a non-dict; only `json.JSONDecodeError` is handled), so
`extract()` produces no result object and persists no state. -/
theorem c10_non_object_raises :
    ∀ (sessions : Store) (doc : String) (schema : Schema) (sid : String)
      (fb : Option String) (resp : String) (v : Json),
    parseResponse resp = some v → (∀ kvs, v ≠ Json.obj kvs) →
    agent_extract sessions doc schema sid fb resp = .error .attributeError := by
  intro sessions doc schema sid fb resp v hp hno
  set st0 := initial_state sessions doc schema sid fb
  have hext : extract_data st0 resp = .error .attributeError := by
    cases v with
    | obj kvs => exact absurd rfl (hno kvs)
    | null => simp [extract_data, hp]
    | bool b => simp [extract_data, hp]
    | num m e => simp [extract_data, hp]
    | str s2 => simp [extract_data, hp]
    | arr xs => simp [extract_data, hp]
  have happ : applyNode st0 (extract_data st0 resp) = .error .attributeError := by
    rw [hext]; rfl
  have hrun : runGraph st0 resp = .error .attributeError := by
    simp only [runGraph, happ]
  rw [agent_extract, hrun]

/-- C10 witness: a reply that is a JSON array makes the concrete call
raise `AttributeError` (no result, nothing stored). -/
theorem c10_witness :
    agent_extract (fun _ => none) "d" (⟨[], []⟩ : Schema) "s1" none "[1, 2]"
      = .error .attributeError :=
  c10_non_object_raises (fun _ => none) "d" ⟨[], []⟩ "s1" none "[1, 2]"
    (Json.arr [Json.num 1 0, Json.num 2 0]) rfl (fun _ h => Json.noConfusion h)

/-- C2: for every schema and dictionary-shaped extraction data with numeric
recorded confidences, `validate()` yields `needs_review` iff some field of
`schema.required` is absent or null in `extracted_data` or has a recorded
confidence strictly below 0.7; otherwise `validated` (so a confidence of
exactly 0.7 passes, and fields outside `schema.required` are never
checked).  The `needs_review` note lists the missing fields before the
low-confidence fields, each group comma-joined. -/
theorem c2_validate_characterization :
    ∀ (st : ExtractionState) (ed cs : List (String × Json)),
    st.extracted_data = .obj ed → st.confidence_scores = .obj cs →
    (∀ p ∈ cs, ∃ m e, p.2 = Json.num m e) →
    ∃ st', validate_extraction st = .ok st' ∧
      (st'.status = "needs_review" ↔
        ∃ f ∈ st.json_schema.required,
          (objLookup ed f = none ∨ objLookup ed f = some .null) ∨
          (∃ m e, objLookup cs f = some (.num m e) ∧ jsonToRat m e < 7 / 10)) ∧
      (st'.status = "needs_review" ∨ st'.status = "validated") ∧
      (st'.status = "needs_review" →
        st'.messages = [⟨"ai", "Validation: " ++ String.intercalate "; "
          ((if !(st.json_schema.required.filter (missingPred ed)).isEmpty then
              ["Missing required fields: " ++ String.intercalate ", "
                (st.json_schema.required.filter (missingPred ed))] else [])
           ++ (if !(st.json_schema.required.filter (lowConfPred ed cs)).isEmpty then
              ["Low confidence fields: " ++ String.intercalate ", "
                (st.json_schema.required.filter (lowConfPred ed cs))] else []))⟩]) ∧
      (st'.status = "validated" →
        st'.messages = [⟨"ai", "All required fields extracted with good confidence."⟩]) := by
  intro st ed cs h1 h2 hconf
  refine ⟨_, validate_obj h1 h2 hconf, ?_⟩
  rw [validationResult]
  by_cases hcond : (!(st.json_schema.required.filter (missingPred ed)).isEmpty
      || !(st.json_schema.required.filter (lowConfPred ed cs)).isEmpty) = true
  · rw [if_pos hcond]
    refine ⟨?_, Or.inl rfl, fun _ => rfl, fun hv => by simp at hv⟩
    constructor
    · intro _
      exact (reviewCond_iff ed cs st.json_schema.required).mp hcond
    · intro _
      rfl
  · rw [if_neg hcond]
    refine ⟨?_, Or.inr rfl, fun hv => by simp at hv, fun _ => rfl⟩
    constructor
    · intro hv
      simp at hv
    · intro hex
      exact absurd ((reviewCond_iff ed cs st.json_schema.required).mpr hex) hcond

/-- A concrete validator input for the C2 witness: required `a`, `b`, `c`;
`a` confident, `b` at exactly 0.7, `c` null. -/
def c2wEd : List (String × Json) := [("a", .str "v"), ("b", .str "w"), ("c", .null)]

def c2wCs : List (String × Json) := [("a", .num 9 1), ("b", .num 7 1)]

def c2wState : ExtractionState :=
  ⟨"doc", ⟨[], ["a", "b", "c"]⟩, .obj c2wEd, .obj c2wCs, none, 0, 3, "extracted", []⟩

/-- C2 witness: the characterization instantiated at a state whose
required fields include one at confidence exactly 0.7 (passing) and one
null (flagged). -/
theorem c2_witness :
    ∃ st', validate_extraction c2wState = .ok st' ∧
      (st'.status = "needs_review" ↔
        ∃ f ∈ c2wState.json_schema.required,
          (objLookup c2wEd f = none ∨ objLookup c2wEd f = some .null) ∨
          (∃ m e, objLookup c2wCs f = some (.num m e) ∧ jsonToRat m e < 7 / 10)) ∧
      (st'.status = "needs_review" ∨ st'.status = "validated") ∧
      (st'.status = "needs_review" →
        st'.messages = [⟨"ai", "Validation: " ++ String.intercalate "; "
          ((if !(c2wState.json_schema.required.filter (missingPred c2wEd)).isEmpty then
              ["Missing required fields: " ++ String.intercalate ", "
                (c2wState.json_schema.required.filter (missingPred c2wEd))] else [])
           ++ (if !(c2wState.json_schema.required.filter (lowConfPred c2wEd c2wCs)).isEmpty then
              ["Low confidence fields: " ++ String.intercalate ", "
                (c2wState.json_schema.required.filter (lowConfPred c2wEd c2wCs))] else []))⟩]) ∧
      (st'.status = "validated" →
        st'.messages = [⟨"ai", "All required fields extracted with good confidence."⟩]) :=
  c2_validate_characterization c2wState c2wEd c2wCs rfl rfl (by
    intro p hp
    fin_cases hp
    · exact ⟨9, 1, rfl⟩
    · exact ⟨7, 1, rfl⟩)

theorem classify_no_entries {ed cs : List (String × Json)} :
    ∀ {required : List String},
    (∀ f ∈ required,
      ∃ v, objLookup ed f = some v ∧ v.isNull = false ∧ objLookup cs f = none) →
    classify_fields (.obj ed) (.obj cs) required = .ok ([], [])
  | [], _ => rfl
  | f :: rest, h => by
    obtain ⟨v, hv, hvn, hcf⟩ := h f (List.mem_cons_self _ _)
    have hm : fieldMissing (.obj ed) f = .ok false := by
      rw [fieldMissing_obj, missingPred]
      simp only [hv, hvn]
    have hl : fieldLowConf (.obj cs) f = .ok false := by
      rw [fieldLowConf, pyIn, hcf]
      rfl
    rw [classify_fields]
    simp only [hm, hl,
      classify_no_entries (fun g hg => h g (List.mem_cons_of_mem _ hg))]
    rfl

/-- C9: a required field that is present and non-null in `extracted_data`
but has no entry in `confidence_scores` is never flagged; when every
required field is like that, `validate()` returns `validated` (so it does
with an entirely empty `confidence_scores`). -/
theorem c9_missing_confidence_entry_ignored :
    ∀ (st : ExtractionState) (ed cs : List (String × Json)),
    st.extracted_data = .obj ed → st.confidence_scores = .obj cs →
    (∀ f ∈ st.json_schema.required,
      ∃ v, objLookup ed f = some v ∧ v ≠ .null ∧ objLookup cs f = none) →
    validate_extraction st = .ok { st with
      status := "validated"
      messages := [⟨"ai", "All required fields extracted with good confidence."⟩] } := by
  intro st ed cs h1 h2 hreq
  have hclass := @classify_no_entries ed cs st.json_schema.required
    (fun f hf => by
      obtain ⟨v, hv, hvn, hcf⟩ := hreq f hf
      refine ⟨v, hv, ?_, hcf⟩
      cases hvb : v.isNull with
      | false => rfl
      | true => exact absurd ((isNull_iff v).mp hvb) hvn)
  simp only [validate_extraction, h1, h2, hclass]
  rfl

/-- C9 witness: all required fields present and non-null, empty
`confidence_scores`: the concrete state validates. -/
theorem c9_witness :
    validate_extraction
        ⟨"doc", ⟨[], ["a"]⟩, .obj [("a", .str "x")], .obj [], none, 0, 3, "extracted", []⟩
      = .ok { (⟨"doc", ⟨[], ["a"]⟩, .obj [("a", .str "x")], .obj [], none, 0, 3,
          "extracted", []⟩ : ExtractionState) with
        status := "validated"
        messages := [⟨"ai", "All required fields extracted with good confidence."⟩] } :=
  c9_missing_confidence_entry_ignored _ [("a", .str "x")] [] rfl rfl (by
    intro f hf
    fin_cases hf
    exact ⟨.str "x", rfl, by simp, rfl⟩)

/-- C1 counterexample: a non-JSON model reply ("hello", no fences) on a
schema with one required field.  The claim says the parse-failure path does
not proceed to validation and the final status is "error"; in fact the
graph has an unconditional edge from `extract` to `validate`, so the
validator runs on the empty data and overwrites the status: the persisted
and returned status is "needs_review", not "error". -/
theorem c1_counterexample :
    (agent_extract (fun _ => none) "doc" ⟨[("a", Json.str "string")], ["a"]⟩ "s1" none
        "hello").map (fun p => p.2.status) = .ok "needs_review" ∧
    "needs_review" ≠ "error" := by
  refine ⟨rfl, ?_⟩
  decide

/-- C1 (amended): on a parse failure the `extract` node does set empty
data, increment `iteration` and set status "error", but the run then
proceeds to validation, which overwrites the status with its verdict on
the empty `extracted_data`: "validated" when the schema has no required
fields, else "needs_review" — never "error". -/
theorem c1_error_status_overwritten (st : ExtractionState) (resp : String)
    (h : parseResponse resp = none) :
    ∃ st', runGraph st resp = .ok st' ∧
      st'.extracted_data = .obj [] ∧ st'.confidence_scores = .obj [] ∧
      st'.iteration = st.iteration + 1 ∧
      st'.status =
        (if st.json_schema.required.isEmpty then "validated" else "needs_review") ∧
      st'.status ≠ "error" := by
  have he1 := extract_data_parse_failure st resp h
  have hcs : ∀ p ∈ ([] : List (String × Json)), ∃ m e, p.2 = Json.num m e :=
    fun p hp => absurd hp (List.not_mem_nil p)
  have hmF : st.json_schema.required.filter (missingPred []) = st.json_schema.required :=
    filter_all_true (fun a _ => rfl)
  have hlF : st.json_schema.required.filter (lowConfPred [] []) = [] :=
    List.filter_eq_nil_iff.mpr (fun a _ hc => by
      rw [show lowConfPred [] [] a = false from rfl] at hc
      exact Bool.noConfusion hc)
  refine ⟨_, runGraph_ok_intro he1 (validate_obj rfl rfl hcs), ?_, ?_, ?_, ?_, ?_⟩
  · rw [hmF, hlF, validationResult]
    split <;> rfl
  · rw [hmF, hlF, validationResult]
    split <;> rfl
  · rw [hmF, hlF, validationResult]
    split <;> rfl
  · rw [hmF, hlF, validationResult]
    cases hE : st.json_schema.required.isEmpty with
    | true => simp [hE]
    | false => simp [hE]
  · rw [hmF, hlF, validationResult]
    split <;> simp

def c1wState : ExtractionState :=
  ⟨"doc", ⟨[("a", Json.str "string")], ["a"]⟩, .null, .null, none, 0, 3, "started", []⟩

/-- C1 witness: the amended statement instantiated at a fresh state and the
unparseable reply "hello". -/
theorem c1_witness :
    ∃ st', runGraph c1wState "hello" = .ok st' ∧
      st'.extracted_data = .obj [] ∧ st'.confidence_scores = .obj [] ∧
      st'.iteration = c1wState.iteration + 1 ∧
      st'.status =
        (if c1wState.json_schema.required.isEmpty then "validated" else "needs_review") ∧
      st'.status ≠ "error" :=
  c1_error_status_overwritten c1wState "hello" rfl

/-- C3 counterexample: two successful no-feedback `extract()` calls for the
same session.  The claim says the stored counter reaches N = 2; in fact a
call without truthy feedback re-seeds a fresh state at iteration 0, so the
stored counter after both calls is 1, not 2 (it is reset, not monotone). -/
theorem c3_counterexample :
    ((runCalls (fun _ => none) "d" ⟨[], []⟩ "s"
        [(none, "\x7b\x7d"), (none, "\x7b\x7d")]).toOption.bind
      (fun store => (store "s").map ExtractionState.iteration)) = some 1 ∧
    (1 : Nat) ≠ 2 := by
  refine ⟨rfl, ?_⟩
  decide

/-- C3 (amended): each completed graph run increments `iteration` exactly
once (also on parse failure), but the stored counter is monotone only
along calls that carry truthy feedback: a call without truthy feedback
re-seeds a fresh state, so its stored counter is 1 regardless of the prior
session; after N truthy-feedback calls on an existing session the counter
advances by exactly N. -/
theorem c3_iteration_reset_not_monotone :
    (∀ (st : ExtractionState) (resp : String) (st' : ExtractionState),
      runGraph st resp = .ok st' → st'.iteration = st.iteration + 1)
    ∧ (∀ (sessions : Store) (doc : String) (schema : Schema) (sid : String)
        (fb : Option String) (resp : String) (store2 : Store) (res : ExtractResult),
      pyTruthy fb = false →
      agent_extract sessions doc schema sid fb resp = .ok (store2, res) →
      res.iteration = 1)
    ∧ (∀ (calls : List (Option String × String)) (sessions : Store)
        (doc : String) (schema : Schema) (sid : String) (st0 : ExtractionState)
        (store2 : Store),
      sessions sid = some st0 →
      (∀ p ∈ calls, pyTruthy p.1 = true) →
      runCalls sessions doc schema sid calls = .ok store2 →
      ∃ st, store2 sid = some st ∧ st.iteration = st0.iteration + calls.length) := by
  refine ⟨fun st resp st' h => (runGraph_ok_fields h).1, ?_, runCalls_chain⟩
  intro sessions doc schema sid fb resp store2 res hfb hag
  obtain ⟨final, hrun, hstore, hres⟩ := agent_extract_ok_elim hag
  rw [initial_state_fresh sessions doc schema sid fb (Or.inl hfb)] at hrun
  subst hres
  simpa using (runGraph_ok_fields hrun).1

def c3wState : ExtractionState :=
  ⟨"orig", ⟨[], []⟩, .obj [], .obj [], none, 5, 3, "needs_review", []⟩

/-- C3 witness: two truthy-feedback calls on a stored session at iteration
5 leave the stored counter at 7. -/
theorem c3_witness :
    ∃ store2, runCalls (fun s => if s = "sA" then some c3wState else none) "d"
        ⟨[], []⟩ "sA" [(some "fix", "\x7b\x7d"), (some "more", "\x7b\x7d")] = .ok store2 ∧
      ∃ st, store2 "sA" = some st ∧ st.iteration = c3wState.iteration + 2 := by
  refine ⟨_, rfl, ?_⟩
  exact c3_iteration_reset_not_monotone.2.2
    [(some "fix", "\x7b\x7d"), (some "more", "\x7b\x7d")]
    (fun s => if s = "sA" then some c3wState else none) "d" ⟨[], []⟩ "sA" c3wState _
    rfl (by intro p hp; fin_cases hp <;> rfl) rfl

/-- C4: with truthy (non-empty) feedback and a prior stored state, the
working state is seeded from the prior state — keeping its
`document_text` and `json_schema` through the run — with `human_feedback`
overwritten and status "reprocessing"; any other call (no feedback, empty
feedback, or no prior state) starts a fresh state from the newly supplied
arguments with iteration 0, status "started" and an empty message log. -/
theorem c4_feedback_seeding :
    (∀ (sessions : Store) (doc : String) (schema : Schema) (sid : String)
        (fb : Option String) (prev : ExtractionState),
      pyTruthy fb = true → sessions sid = some prev →
      initial_state sessions doc schema sid fb =
        { prev with human_feedback := fb, status := "reprocessing" })
    ∧ (∀ (sessions : Store) (doc : String) (schema : Schema) (sid : String)
        (fb : Option String),
      pyTruthy fb = false ∨ sessions sid = none →
      initial_state sessions doc schema sid fb =
        { document_text := doc, json_schema := schema,
          extracted_data := .null, confidence_scores := .null,
          human_feedback := fb, iteration := 0, max_iterations := 3,
          status := "started", messages := [] })
    ∧ (∀ (sessions : Store) (doc : String) (schema : Schema) (sid : String)
        (fb : Option String) (prev : ExtractionState) (resp : String)
        (final : ExtractionState),
      pyTruthy fb = true → sessions sid = some prev →
      runGraph (initial_state sessions doc schema sid fb) resp = .ok final →
      final.document_text = prev.document_text ∧
      final.json_schema = prev.json_schema ∧
      final.human_feedback = fb ∧ final.iteration = prev.iteration + 1) := by
  refine ⟨fun sessions doc schema sid fb prev h1 h2 =>
      initial_state_seeded doc schema h1 h2,
    fun sessions doc schema sid fb h =>
      initial_state_fresh sessions doc schema sid fb h, ?_⟩
  intro sessions doc schema sid fb prev resp final h1 h2 hrun
  rw [initial_state_seeded doc schema h1 h2] at hrun
  obtain ⟨hit, hd, hs, hf, _, _⟩ := runGraph_ok_fields hrun
  exact ⟨hd, hs, hf, hit⟩

def c4wPrev : ExtractionState :=
  ⟨"origdoc", ⟨[("a", Json.str "string")], ["a"]⟩, .obj [], .obj [], none, 1, 3,
    "needs_review", []⟩

def c4wStore : Store := fun s => if s = "sB" then some c4wPrev else none

/-- C4 witness: a feedback call on the stored session "sB" re-seeds from
the prior state; the same call on the unknown session "sC" starts fresh. -/
theorem c4_witness :
    initial_state c4wStore "newdoc" ⟨[], []⟩ "sB" (some "fix") =
      { c4wPrev with human_feedback := some "fix", status := "reprocessing" } ∧
    initial_state c4wStore "newdoc" ⟨[], []⟩ "sC" (some "fix") =
      { document_text := "newdoc", json_schema := ⟨[], []⟩,
        extracted_data := .null, confidence_scores := .null,
        human_feedback := some "fix", iteration := 0, max_iterations := 3,
        status := "started", messages := [] } :=
  ⟨c4_feedback_seeding.1 c4wStore "newdoc" ⟨[], []⟩ "sB" (some "fix") c4wPrev rfl rfl,
   c4_feedback_seeding.2.1 c4wStore "newdoc" ⟨[], []⟩ "sC" (some "fix") (Or.inr rfl)⟩

/-- The shape of a valid extraction payload: the object whose three keys
`extract_data` reads (dict-valued `extracted_data` and
`confidence_scores`, a string `extraction_notes`). -/
def IsPayload (x : Json) : Prop :=
  ∃ ed cs notes, x = Json.obj [("extracted_data", Json.obj ed),
    ("confidence_scores", Json.obj cs), ("extraction_notes", Json.str notes)]

def c5X : Json :=
  Json.obj [("extracted_data", Json.obj [("a", Json.str "``` 1")]),
    ("confidence_scores", Json.obj []), ("extraction_notes", Json.str "ok")]

/-- C5 counterexample: a valid extraction payload whose serialized form
contains a backtick fence marker inside a string value.  The fence
stripper fires on the raw serialization (no fences were added), keeps only
the text after the first "```", and parsing no longer returns the
payload: round-trip fails. -/
theorem c5_counterexample :
    IsPayload c5X ∧ parseResponse (jsonDumps c5X) ≠ some c5X := by
  refine ⟨⟨[("a", Json.str "``` 1")], [], "ok", rfl⟩, ?_⟩
  have hd : jsonDumps c5X =
      "\x7b\"extracted_data\": \x7b\"a\": \"``` 1\"\x7d, \"confidence_scores\": \x7b\x7d, \"extraction_notes\": \"ok\"\x7d" := by
    simp [c5X, jsonDumps, serVal, serMembers, serItems, serStr, escCh]
  rw [hd]
  intro hc
  rw [show parseResponse
      "\x7b\"extracted_data\": \x7b\"a\": \"``` 1\"\x7d, \"confidence_scores\": \x7b\x7d, \"extraction_notes\": \"ok\"\x7d"
      = none from rfl] at hc
  exact Option.noConfusion hc

/-- C5 (amended): parsing is idempotent on already-clean JSON only when
the serialization contains no "```" fence marker: for every JSON value
`X` (in particular every extraction payload) whose serialization has no
"```" substring, parsing `json.dumps(X)` yields exactly `X`. -/
theorem c5_roundtrip_without_fences (X : Json) (h : ¬ tick3 <:+: serVal X) :
    parseResponse (jsonDumps X) = some X := by
  rw [parseResponse, jsonDumps,
    show (⟨serVal X⟩ : String).data = serVal X from rfl,
    stripFencesL_plain _ h, trimChars_serVal, jsonParseL_serVal]

def c5Y : Json :=
  Json.obj [("extracted_data", Json.obj []), ("confidence_scores", Json.obj []),
    ("extraction_notes", Json.str "ok")]

set_option maxRecDepth 4000 in
/-- C5 witness: a fence-free payload round-trips. -/
theorem c5_witness : parseResponse (jsonDumps c5Y) = some c5Y := by
  have hd : jsonDumps c5Y =
      "\x7b\"extracted_data\": \x7b\x7d, \"confidence_scores\": \x7b\x7d, \"extraction_notes\": \"ok\"\x7d" := by
    simp [c5Y, jsonDumps, serVal, serMembers, serStr, escCh]
  have h2 : serVal c5Y =
      ("\x7b\"extracted_data\": \x7b\x7d, \"confidence_scores\": \x7b\x7d, \"extraction_notes\": \"ok\"\x7d" : String).data :=
    congrArg String.data hd
  exact c5_roundtrip_without_fences c5Y (by rw [h2]; decide)

/-- C6 counterexample: inner content C = "1```2" containing a fence
marker of its own.  Wrapped in JSON fences the stripper keeps "1" (the
text between the opening fence and the first inner "```"); unwrapped, the
stripper fires on the inner "```" and keeps "2": the wrapped and raw
parses disagree, so the claimed three-way equality fails. -/
theorem c6_counterexample :
    parseResponse ("```json\n" ++ "1```2" ++ "\n```") = some (Json.num 1 0) ∧
    parseResponse "1```2" = some (Json.num 2 0) ∧
    Json.num 1 0 ≠ Json.num 2 0 := by
  refine ⟨rfl, rfl, ?_⟩
  intro hc
  injection hc with h1 h2
  exact absurd h1 (by decide)

/-- C6 (amended): the three-way equality holds for every inner content
that itself contains no "```" marker: wrapping such content in
JSON-flavored fences or in plain fences does not change the parse. -/
theorem c6_fence_strip_equivalence (C : String) (h : ¬ tick3 <:+: C.data) :
    parseResponse ("```json\n" ++ C ++ "\n```") = parseResponse C ∧
    parseResponse ("```\n" ++ C ++ "\n```") = parseResponse C := by
  have hd1 : ("```json\n" ++ C ++ "\n```").data
      = fenceJson ++ '\n' :: (C.data ++ '\n' :: tick3) := rfl
  have hd2 : ("```\n" ++ C ++ "\n```").data
      = tick3 ++ '\n' :: (C.data ++ '\n' :: tick3) := rfl
  constructor
  · rw [parseResponse, hd1, stripFencesL_jsonWrap C.data h, trimChars_wrap,
      parseResponse, stripFencesL_plain C.data h]
  · rw [parseResponse, hd2, stripFencesL_plainWrap C.data h, trimChars_wrap,
      parseResponse, stripFencesL_plain C.data h]

/-- C6 witness: fence-free inner content "\x7b\x7d" parses the same bare,
JSON-fenced and plain-fenced. -/
theorem c6_witness :
    parseResponse ("```json\n" ++ "\x7b\x7d" ++ "\n```") = parseResponse "\x7b\x7d" ∧
    parseResponse ("```\n" ++ "\x7b\x7d" ++ "\n```") = parseResponse "\x7b\x7d" :=
  ⟨(c6_fence_strip_equivalence "\x7b\x7d" (by decide)).1,
   (c6_fence_strip_equivalence "\x7b\x7d" (by decide)).2⟩
